import Mathlib

/-!
# gr-baz stream blocks: depuncturer, peak detector, time keeper

A shallow embedding of `lib/baz_depuncture_ff.cc`, `lib/baz_peak_detector.cc` and
`lib/baz_time_keeper.cc`, followed by theorems about the embedded code.

Conventions of the embedding.

* C `int` counters are `Int`/`Nat` without wrap-around: buffer sizes handed out by the
  scheduler are far below `2^31`, so no counter of these loops overflows.
* `float`/`double` values are the rationals they denote.  Every `float` operation of the
  peak detector is rounded to binary32 (`fl32`) and every `double` operation of the
  depuncturer and the time keeper to binary64 (`fl64`): round to nearest, ties to even,
  subnormals included, each operation rounded on its own (no fused multiply-add, no
  extended intermediate precision).  Overflow to an infinity is not modelled; a division by
  zero is dealt with where it occurs.  Samples and constructor arguments are taken as
  given: they are the `float` values handed to the block.  Where a sample is only copied
  (depuncturer) the sample type is left abstract.
* `baz_time_keeper::time` is embedded twice: `baz_time_keeper.time_double` is the value the
  function returns, in `double` arithmetic, and `baz_time_keeper.time` is the exact value
  of the same expression, for the statements about the formula itself.
* A stream pointer `const float *in` of the peak detector is a function `Nat → ℚ`.
* Undefined behaviour of the C code (division by zero in `%`, a write outside the output
  buffer, a read past the supplied input) makes the embedded function return `none`.
-/

namespace GrBaz

/-! ## Floating-point rounding -/

/-- Rounding of a rational to the nearest integer, a tie going to the even neighbour. -/
def roundHalfEven (y : ℚ) : Int :=
  let f : Int := ⌊y⌋
  let r : ℚ := y - f
  if r < 1 / 2 then f
  else if 1 / 2 < r then f + 1
  else if f % 2 = 0 then f else f + 1

/-- The number of halvings that take `n` below 2, that is `⌊log₂ n⌋` for `0 < n ≤ fuel`. -/
def log2Fuel : Nat → Nat → Nat
  | 0, _ => 0
  | fuel + 1, n => if 2 ≤ n then log2Fuel fuel (n / 2) + 1 else 0

/-- The binary exponent of a nonzero rational: the `e` with `2^e ≤ |x| < 2^(e+1)`. -/
def ilog2 (x : ℚ) : Int :=
  let k : Int := (log2Fuel x.num.natAbs x.num.natAbs : Int) - (log2Fuel x.den x.den : Int)
  if (2 : ℚ) ^ k ≤ |x| then k else k - 1

/-- The value nearest to `x` in the binary floating-point format with a significand of `p`
bits and least normal exponent `emin` (IEEE 754 round to nearest, ties to even): `x` is
rounded to a multiple of the spacing `2^(e - p + 1)` of its binade, `e` being the exponent
of `x` or `emin` for the subnormal range.  The format has no largest exponent here. -/
def roundFloat (p : Nat) (emin : Int) (x : ℚ) : ℚ :=
  if x = 0 then 0
  else
    let e : Int := max (ilog2 x) emin
    let q : ℚ := (2 : ℚ) ^ (e - ((p : Int) - 1))
    (roundHalfEven (x / q) : ℚ) * q

/-- Rounding to `float` (binary32). -/
def fl32 (x : ℚ) : ℚ := roundFloat 24 (-126) x

/-- Rounding to `double` (binary64). -/
def fl64 (x : ℚ) : ℚ := roundFloat 53 (-1022) x

/-! ## Depuncturer (`baz_depuncture_ff`) -/

/-- The conversion `(char)matrix[i]` of `set_matrix`: an `int` narrowed to a signed
8-bit value. -/
def toChar (x : Int) : Int := (x + 128) % 256 - 128

/-- Member variables of `baz_depuncture_ff`, together with the relative rate published
through `set_relative_rate`. -/
structure baz_depuncture_ff where
  m_iLength : Nat
  m_pMatrix : Option (List Int)
  m_iIndex : Nat
  relative_rate : ℚ
  deriving DecidableEq

/-- The counting loop of `set_matrix`: `iOne` after visiting the entries of `matrix`. -/
def countOnes (matrix : List Int) : Nat :=
  matrix.foldl (fun iOne x => if x ≠ 0 then iOne + 1 else iOne) 0

/-- The body of `baz_depuncture_ff::set_matrix`.  `dRate` is the `double` quotient of the
two counts, which convert to `double` without rounding.  For a pattern without a nonzero
entry the C++ quotient is a division by zero (an infinity); the model has 0 there and no
theorem below relies on it. -/
def set_matrix (self : baz_depuncture_ff) (matrix : List Int) : baz_depuncture_ff :=
  if matrix.isEmpty then self
  else
    { m_iLength := matrix.length
      m_pMatrix := some (matrix.map toChar)
      m_iIndex := 0
      relative_rate := fl64 ((matrix.length : ℚ) / (countOnes matrix : ℚ)) }

/-- The constructor `baz_depuncture_ff::baz_depuncture_ff`.  The relative rate of a new
`gr::block` is 1. -/
def baz_make_depuncture_ff (matrix : List Int) : baz_depuncture_ff :=
  set_matrix { m_iLength := 0, m_pMatrix := none, m_iIndex := 0, relative_rate := 1 } matrix

/-- Loop state of `general_work`: the block, the input cursor `iIn` and the output written
so far (`*out++` appends). -/
structure DepunctureLoop (α : Type) where
  self : baz_depuncture_ff
  iIn : Nat
  out : List α

/-- One iteration of the `for` loop of `general_work`.  `none` stands for undefined
behaviour: a pattern read out of bounds, a read past the supplied input, or `% 0`. -/
def general_work_step {α : Type} [Zero α] (inp : List α) (st : DepunctureLoop α) :
    Option (DepunctureLoop α) :=
  let b : Option Int :=
    match st.self.m_pMatrix with
    | some m => m[st.self.m_iIndex]?
    | none => some 1
  match b with
  | none => none
  | some b =>
    if st.self.m_iLength = 0 then none
    else
      let self' := { st.self with m_iIndex := (st.self.m_iIndex + 1) % st.self.m_iLength }
      if b ≠ 0 then
        match inp[st.iIn]? with
        | none => none
        | some v => some { self := self', iIn := st.iIn + 1, out := st.out ++ [v] }
      else
        some { self := self', iIn := st.iIn, out := st.out ++ [0] }

/-- The `for` loop of `general_work`, `n` iterations from the loop state `st`. -/
def general_work_loop {α : Type} [Zero α] (inp : List α) :
    Nat → DepunctureLoop α → Option (DepunctureLoop α)
  | 0, st => some st
  | n + 1, st =>
    match general_work_step inp st with
    | none => none
    | some st' => general_work_loop inp n st'

/-- What one call of `general_work` reports. -/
structure DepunctureResult (α : Type) where
  self : baz_depuncture_ff
  out : List α
  consumed : Nat
  produced : Nat

/-- The body of `baz_depuncture_ff::general_work`: `consumed` is the argument of
`consume_each`, `produced` the return value. -/
def general_work {α : Type} [Zero α] (self : baz_depuncture_ff) (noutput_items : Nat)
    (inp : List α) : Option (DepunctureResult α) :=
  match general_work_loop inp noutput_items { self := self, iIn := 0, out := [] } with
  | none => none
  | some st =>
    some { self := st.self, out := st.out, consumed := st.iIn, produced := noutput_items }

/-- The configured flag at cyclic position `j` of the pattern `p`. -/
def patternAt (p : List Int) (j : Nat) : Int := p.getD (j % p.length) 0

/-- Number of keep-flags met while replaying `p` cyclically over the positions `0..j-1`. -/
def keepsBefore (p : List Int) (j : Nat) : Nat :=
  ((List.range j).filter (fun i => patternAt p i ≠ 0)).length

/-- Number of entries equal to 1 met while replaying `p` cyclically over `0..j-1`. -/
def onesBefore (p : List Int) (j : Nat) : Nat :=
  ((List.range j).filter (fun i => patternAt p i = 1)).length

/-- A call made on a depuncturer from outside: `set_matrix` with a pattern, or one
`general_work` call for `noutput_items` outputs on the input `inp`. -/
inductive DepunctureOp (α : Type) where
  | set_pattern (matrix : List Int)
  | process (noutput_items : Nat) (inp : List α)

/-- The input handed to a `general_work` call covers the worst case of one input sample
per requested output. -/
def DepunctureOp.enough_input {α : Type} : DepunctureOp α → Prop
  | DepunctureOp.set_pattern _ => True
  | DepunctureOp.process noutput_items inp => noutput_items ≤ inp.length

/-- A finite sequence of calls run in order; `none` when a `general_work` call runs into
undefined behaviour. -/
def run_ops {α : Type} [Zero α] :
    baz_depuncture_ff → List (DepunctureOp α) → Option baz_depuncture_ff
  | s, [] => some s
  | s, DepunctureOp.set_pattern matrix :: ops => run_ops (set_matrix s matrix) ops
  | s, DepunctureOp.process noutput_items inp :: ops =>
    match general_work s noutput_items inp with
    | none => none
    | some r => run_ops r.self ops

/-- The cursor invariant of the depuncturer: a pattern of positive length is stored and
the replay cursor points into it. -/
def cursorInv (s : baz_depuncture_ff) : Prop :=
  0 < s.m_iLength ∧ s.m_iIndex < s.m_iLength ∧
    ∃ m : List Int, s.m_pMatrix = some m ∧ m.length = s.m_iLength

/-! ## Peak detector (`baz_peak_detector`) -/

/-- Member variables of `baz_peak_detector`: the six configuration values followed by the
working state. -/
structure baz_peak_detector where
  d_min_diff : ℚ
  d_min_len : Int
  d_lockout : Int
  d_drop : ℚ
  d_alpha : ℚ
  d_look_ahead : Int
  d_rising : Bool
  d_rise_count : Int
  d_lockout_count : Int
  d_first : ℚ
  d_ave : ℚ
  d_peak : ℚ
  d_look_ahead_count : Int
  d_peak_idx : Int
  deriving DecidableEq

/-- The constructor `baz_peak_detector::baz_peak_detector`. -/
def baz_make_peak_detector (min_diff : ℚ) (min_len lockout : Int) (drop alpha : ℚ)
    (look_ahead : Int) : baz_peak_detector :=
  { d_min_diff := min_diff, d_min_len := min_len, d_lockout := lockout, d_drop := drop,
    d_alpha := alpha, d_look_ahead := look_ahead,
    d_rising := false, d_rise_count := 0, d_lockout_count := 1, d_first := 0, d_ave := 0,
    d_peak := 0, d_look_ahead_count := 0, d_peak_idx := -1 }

/-- Loop state of `work`: the block and the output buffer `out[0 .. noutput_items)`. -/
structure PeakLoop where
  self : baz_peak_detector
  out : List ℚ
  deriving DecidableEq

/-- How one iteration of the `for` loop of `work` ends: the loop goes on (`continue` or the
end of the body), `work` returns early with a count, or a marker is written outside the
output buffer (undefined behaviour). -/
inductive PeakStep where
  | next (st : PeakLoop)
  | ret (st : PeakLoop) (produced : Int)
  | fault
  deriving DecidableEq

/-- The update of the moving average at the head of the loop body (source line 110),
`d_alpha * in[i-1] + (1.0f - d_alpha) * d_ave` in `float` arithmetic, for the sample
`x = in[i-1]`. -/
def ave_step (alpha ave x : ℚ) : ℚ :=
  fl32 (fl32 (alpha * x) + fl32 (fl32 (1 - alpha) * ave))

/-- The adaptive threshold of source line 120, `d_ave - (d_ave * d_drop)` in `float`
arithmetic. -/
def threshold (ave drop : ℚ) : ℚ := fl32 (ave - fl32 (ave * drop))

/-- The tail of the loop body of `work` (source lines 172-190): the confirmation of a
rising run at input index `i`. -/
def work_confirm (inp : Nat → ℚ) (i : Nat) (s : baz_peak_detector) (out : List ℚ) :
    PeakStep :=
  if s.d_rising then
    if s.d_rise_count ≥ s.d_min_len then
      let diff : ℚ := if s.d_first > 0 then fl32 (inp i / s.d_first) else 0
      if s.d_min_diff = 0 ∨ diff ≥ s.d_min_diff then
        if 0 ≤ s.d_peak_idx ∧ s.d_peak_idx < out.length then
          PeakStep.next
            { self := { s with d_lockout_count := s.d_lockout, d_rising := false },
              out := out.set s.d_peak_idx.toNat 1 }
        else PeakStep.fault
      else PeakStep.next { self := { s with d_rising := false }, out := out }
    else PeakStep.next { self := { s with d_rising := false }, out := out }
  else PeakStep.next { self := s, out := out }

/-- The rising branch of the loop body of `work` (source lines 120-160), entered when
`in[i]` is above the threshold. -/
def work_rising (noutput_items : Nat) (inp : Nat → ℚ) (i : Nat) (s : baz_peak_detector)
    (out : List ℚ) : PeakStep :=
  let offset : Nat := 1
  let new_peak : Bool := if s.d_rising = false then true else decide (inp i > s.d_peak)
  let s1 : baz_peak_detector :=
    if s.d_rising = false then { s with d_rising := true, d_rise_count := 0, d_first := inp i }
    else s
  if new_peak then
    let s2 : baz_peak_detector :=
      { s1 with d_peak := inp i, d_look_ahead_count := s1.d_look_ahead,
                d_peak_idx := (i : Int) - offset }
    if s2.d_look_ahead_count > (noutput_items : Int) - ((i : Int) - offset) + 1 then
      PeakStep.ret { self := s2, out := out } (((i : Int) - offset) + 1)
    else
      PeakStep.next { self := { s2 with d_rise_count := s2.d_rise_count + 1 }, out := out }
  else
    PeakStep.next { self := { s1 with d_rise_count := s1.d_rise_count + 1 }, out := out }

/-- The detection part of the loop body of `work` (source lines 120-190), reached when
the lockout does not skip the sample. -/
def work_detect (noutput_items : Nat) (inp : Nat → ℚ) (i : Nat) (s : baz_peak_detector)
    (out : List ℚ) : PeakStep :=
  if inp i > threshold s.d_ave s.d_drop then
    work_rising noutput_items inp i s out
  else if 0 < s.d_look_ahead_count then
    let s1 : baz_peak_detector := { s with d_look_ahead_count := s.d_look_ahead_count - 1 }
    if s1.d_look_ahead_count ≠ 0 then PeakStep.next { self := s1, out := out }
    else work_confirm inp i s1 out
  else work_confirm inp i s out

/-- One iteration of the `for` loop of `work`, at input index `i` (output index
`i - offset`, `offset = 1`). -/
def work_step (noutput_items : Nat) (inp : Nat → ℚ) (i : Nat) (st : PeakLoop) : PeakStep :=
  let s0 : baz_peak_detector :=
    { st.self with
      d_ave := ave_step st.self.d_alpha st.self.d_ave (inp (i - 1)) }
  if 0 < s0.d_lockout_count then
    let s1 : baz_peak_detector := { s0 with d_lockout_count := s0.d_lockout_count - 1 }
    if 0 < s1.d_lockout_count then PeakStep.next { self := s1, out := st.out }
    else work_detect noutput_items inp i s1 st.out
  else work_detect noutput_items inp i s0 st.out

/-- The `for` loop of `work`: `n` iterations starting at input index `i`. -/
def work_loop (noutput_items : Nat) (inp : Nat → ℚ) : Nat → Nat → PeakLoop → PeakStep
  | 0, _, st => PeakStep.next st
  | n + 1, i, st =>
    match work_step noutput_items inp i st with
    | PeakStep.next st' => work_loop noutput_items inp n (i + 1) st'
    | r => r

/-- What one call of `work` leaves behind: the block, the output buffer and the returned
number of produced items. -/
structure PeakResult where
  self : baz_peak_detector
  out : List ℚ
  produced : Int
  deriving DecidableEq

/-- The body of `baz_peak_detector::work`.  `inp 0` is the history sample, `inp (j + 1)`
the sample of output index `j`; the output buffer starts zero-filled (`memset`). -/
def work (self : baz_peak_detector) (noutput_items : Nat) (inp : Nat → ℚ) :
    Option PeakResult :=
  match work_loop noutput_items inp noutput_items (0 + 1)
      { self := self, out := List.replicate noutput_items 0 } with
  | PeakStep.next st => some { self := st.self, out := st.out, produced := noutput_items }
  | PeakStep.ret st r => some { self := st.self, out := st.out, produced := r }
  | PeakStep.fault => none

/-- The loop state of `work` on entry to the iteration of output index `p`, when none of
the earlier iterations has returned. -/
def work_state_at (self : baz_peak_detector) (noutput_items : Nat) (inp : Nat → ℚ)
    (p : Nat) : Option PeakLoop :=
  match work_loop noutput_items inp p (0 + 1)
      { self := self, out := List.replicate noutput_items 0 } with
  | PeakStep.next st => some st
  | _ => none

/-- The path condition of the `if (new_peak)` block (source lines 140-155) for the
iteration at input index `i` entered with the block state `s`: the lockout does not skip
the sample, the sample is above the threshold, and the run starts here or the sample
exceeds the best value seen. -/
def new_peak_at (inp : Nat → ℚ) (i : Nat) (s : baz_peak_detector) : Bool :=
  let ave : ℚ := ave_step s.d_alpha s.d_ave (inp (i - 1))
  let lockout_count : Int :=
    if 0 < s.d_lockout_count then s.d_lockout_count - 1 else s.d_lockout_count
  decide (¬ 0 < lockout_count) && decide (inp i > threshold ave s.d_drop) &&
    (s.d_rising = false || decide (inp i > s.d_peak))

/-- During the call `work self noutput_items inp` a tentative peak is recorded at output
index `p`: the loop reaches that index and its iteration runs the `if (new_peak)` block. -/
def records_peak (self : baz_peak_detector) (noutput_items : Nat) (inp : Nat → ℚ)
    (p : Nat) : Bool :=
  match work_state_at self noutput_items inp p with
  | some st => decide (p < noutput_items) && new_peak_at inp (p + 1) st.self
  | none => false

/-- The loop state an iteration leaves behind, whether the loop goes on or `work` returns
early; a write outside the output buffer leaves none. -/
def PeakStep.loop_state : PeakStep → Option PeakLoop
  | PeakStep.next st => some st
  | PeakStep.ret st _ => some st
  | PeakStep.fault => none

/-- The setting of one sample step: the `noutput_items` and input of the invocation it
belongs to, the input index `i` and the output buffer at that point. -/
structure SampleStep where
  noutput_items : Nat
  inp : Nat → ℚ
  i : Nat
  out : List ℚ

/-- The block state after one sample step in the setting `c`. -/
def step_state (s : baz_peak_detector) (c : SampleStep) : Option baz_peak_detector :=
  ((work_step c.noutput_items c.inp c.i { self := s, out := c.out }).loop_state).map
    (fun st => st.self)

/-- The block state after a sequence of sample steps, taken over any invocations. -/
def run_steps : baz_peak_detector → List SampleStep → Option baz_peak_detector
  | s, [] => some s
  | s, c :: cs =>
    match step_state s c with
    | none => none
    | some s' => run_steps s' cs

/-- The countdown invariant of the peak detector for the configured lockout `K` and
look-ahead `LA`: both countdowns are non-negative and the look-ahead countdown runs only
while the lockout countdown is 0. -/
def countdownInv (K LA : Int) (s : baz_peak_detector) : Prop :=
  s.d_lockout = K ∧ s.d_look_ahead = LA ∧ 0 ≤ s.d_lockout_count ∧
    0 ≤ s.d_look_ahead_count ∧ (0 < s.d_look_ahead_count → s.d_lockout_count = 0)

/-- While a rising run is in progress the lockout countdown is not running. -/
def risingInv (s : baz_peak_detector) : Prop :=
  s.d_rising = true → s.d_lockout_count ≤ 0

/-- The value of `d_ave` after the first `k` iterations of a `work` call entered in the
state `s` on the input `inp`: every iteration starts with the update of source line
110. -/
def ave_after (s : baz_peak_detector) (inp : Nat → ℚ) : Nat → ℚ
  | 0 => s.d_ave
  | k + 1 => ave_step s.d_alpha (ave_after s inp k) (inp k)

/-- The test of source line 120 for the sample of output index `j` in a `work` call
entered in the state `s`: the sample is above the adaptive threshold of its iteration. -/
def above_threshold (s : baz_peak_detector) (inp : Nat → ℚ) (j : Nat) : Prop :=
  inp (j + 1) > threshold (ave_after s inp (j + 1)) s.d_drop

/-- What the detection code leaves alone: the smoothing factor, the drop fraction, the
configured look-ahead, minimum rise and minimum run length, the average and the length of
the output buffer. -/
def detectFrame (s : baz_peak_detector) (out : List ℚ) (st' : PeakLoop) : Prop :=
  st'.self.d_alpha = s.d_alpha ∧ st'.self.d_drop = s.d_drop ∧
    st'.self.d_look_ahead = s.d_look_ahead ∧ st'.self.d_min_diff = s.d_min_diff ∧
    st'.self.d_min_len = s.d_min_len ∧ st'.self.d_ave = s.d_ave ∧
    st'.out.length = out.length

/-- The loop invariant of a rising run that started at output index `s` of a `work` call
entered in the state `self` with `look_ahead = 0`, on entry to the iteration of input
index `i`: the run is still rising, the output buffer is still `outs`, and the tentative
peak is the first maximum of the samples `s .. i - 2`. -/
def runInv (self : baz_peak_detector) (inp : Nat → ℚ) (s : Nat) (outs : List ℚ) (i : Nat)
    (st : PeakLoop) : Prop :=
  st.out = outs ∧ st.self.d_alpha = self.d_alpha ∧ st.self.d_drop = self.d_drop ∧
    st.self.d_look_ahead = 0 ∧ st.self.d_min_diff = self.d_min_diff ∧
    st.self.d_min_len = self.d_min_len ∧ st.self.d_ave = ave_after self inp (i - 1) ∧
    st.self.d_rising = true ∧ st.self.d_lockout_count ≤ 0 ∧
    st.self.d_look_ahead_count = 0 ∧ st.self.d_first = inp (s + 1) ∧
    st.self.d_rise_count = (i : Int) - 1 - (s : Int) ∧
    ∃ p : Nat, s ≤ p ∧ p + 1 < i ∧ st.self.d_peak_idx = (p : Int) ∧
      st.self.d_peak = inp (p + 1) ∧
      (∀ j, s ≤ j → j + 1 < i → inp (j + 1) ≤ inp (p + 1)) ∧
      (∀ j, s ≤ j → j < p → inp (j + 1) < inp (p + 1))

/-- A stream given by the list of its samples; positions past the list read as 0. -/
def streamOf (l : List ℚ) : Nat → ℚ := fun i => l.getD i 0

/-! ## Time keeper (`baz_time_keeper`) -/

/-- An `rx_time` tag as delivered by `get_tags_in_range`: the absolute sample offset and
the `(uint64 seconds, double fractional seconds)` tuple it carries. -/
structure tag_t where
  offset : Nat
  seconds : Nat
  fractional_seconds : ℚ
  deriving DecidableEq

/-- Modelled from the spec: the member declarations of `baz_time_keeper` are in the
header, which is not part of the sources at hand; the field types follow the constructor's
initialiser list and the data model of the specification (an integer sample offset, two
flags, a cumulative counter).  `status_port` collects the messages published on the
`status` message port, oldest first. -/
structure baz_time_keeper where
  d_item_size : Int
  d_sample_rate : ℚ
  d_last_time_seconds : Nat
  d_first_time_seconds : Nat
  d_last_time_fractional_seconds : ℚ
  d_first_time_fractional_seconds : ℚ
  d_time_offset : Int
  d_seen_time : Bool
  d_update_count : Int
  d_ignore_next : Bool
  status_port : List String
  deriving DecidableEq

/-- The constructor `baz_time_keeper::baz_time_keeper`. -/
def baz_make_time_keeper (item_size : Int) (sample_rate : ℚ) : baz_time_keeper :=
  { d_item_size := item_size, d_sample_rate := sample_rate,
    d_last_time_seconds := 0, d_first_time_seconds := 0,
    d_last_time_fractional_seconds := 0, d_first_time_fractional_seconds := 0,
    d_time_offset := -1, d_seen_time := false, d_update_count := 0, d_ignore_next := true,
    status_port := [] }

/-- The expression of `baz_time_keeper::time` read in exact arithmetic: the number the
body denotes before any rounding.  The value the C++ function returns is
`baz_time_keeper.time_double` below. -/
def baz_time_keeper.time (self : baz_time_keeper) (relative : Bool) : ℚ :=
  let d : ℚ := ((self.d_last_time_seconds : ℚ) + self.d_last_time_fractional_seconds) +
    ((self.d_time_offset : ℚ) / self.d_sample_rate)
  if relative then
    d - ((self.d_first_time_seconds : ℚ) + self.d_first_time_fractional_seconds)
  else d

/-- The body of `baz_time_keeper::time` in `double` arithmetic, every conversion and
operation rounded to binary64 in the order of the source:
`((double)d_last_time_seconds + d_last_time_fractional_seconds) +
((double)d_time_offset / (double)d_sample_rate)`, less
`((double)d_first_time_seconds + d_first_time_fractional_seconds)` when `relative`.  The
fractional seconds are `double` values as stored; the sample rate converts to `double`
without rounding.  With a sample rate of 0 the quotient is an infinity or a NaN and the
function returns no finite number: `none`. -/
def baz_time_keeper.time_double (self : baz_time_keeper) (relative : Bool) : Option ℚ :=
  if self.d_sample_rate = 0 then none
  else
    let d : ℚ :=
      fl64 (fl64 (fl64 (self.d_last_time_seconds : ℚ) + self.d_last_time_fractional_seconds) +
        fl64 (fl64 (self.d_time_offset : ℚ) / self.d_sample_rate))
    if relative then
      some (fl64 (d - fl64 (fl64 (self.d_first_time_seconds : ℚ) +
        self.d_first_time_fractional_seconds)))
    else some d

/-- The body of `baz_time_keeper::ignore_next`. -/
def baz_time_keeper.ignore_next (self : baz_time_keeper) (ignore : Bool) : baz_time_keeper :=
  { self with d_ignore_next := ignore }

/-- The body of `baz_time_keeper::update_count`. -/
def baz_time_keeper.update_count (self : baz_time_keeper) : Int := self.d_update_count

/-- The body of the tag loop of `baz_time_keeper::work` (source lines 134-157) for one tag;
the second component is the local variable `offset`. -/
def time_keeper_tag (nread : Nat) (st : baz_time_keeper × Int) (tag : tag_t) :
    baz_time_keeper × Int :=
  let s1 : baz_time_keeper := { st.1 with d_time_offset := 0 }
  let offset : Int := (tag.offset : Int) - (nread : Int)
  let s2 : baz_time_keeper :=
    { s1 with d_last_time_seconds := tag.seconds,
              d_last_time_fractional_seconds := tag.fractional_seconds }
  let s3 : baz_time_keeper :=
    if s2.d_seen_time = false then
      { s2 with d_first_time_seconds := s2.d_last_time_seconds,
                d_first_time_fractional_seconds := s2.d_last_time_fractional_seconds }
    else s2
  let s4 : baz_time_keeper :=
    if s3.d_ignore_next = false then
      { s3 with d_update_count := s3.d_update_count + 1,
                status_port := s3.status_port ++ ["update"] }
    else s3
  ({ s4 with d_seen_time := true }, offset)

/-- The state part of `baz_time_keeper::work` for a buffer of `noutput_items` samples
that starts at absolute sample `nread` and carries the tags `tags`.  The `for` loop runs
over the indices `tags.size() - 1 ≤ i < tags.size()`, which is no index at all when there
are no tags. -/
def baz_time_keeper.work_state (self : baz_time_keeper) (noutput_items : Nat) (nread : Nat)
    (tags : List tag_t) : baz_time_keeper :=
  let s1 : baz_time_keeper :=
    if tags.length > 0 then
      if self.d_ignore_next = false then
        { self with d_update_count := self.d_update_count + ((tags.length : Int) - 1) }
      else self
    else self
  let r : baz_time_keeper × Int :=
    (tags.drop (tags.length - 1)).foldl (time_keeper_tag nread) (s1, 0)
  let s2 : baz_time_keeper :=
    if tags.length > 0 then { r.1 with d_ignore_next := false } else r.1
  { s2 with d_time_offset := s2.d_time_offset + ((noutput_items : Int) - r.2) }

/-- The body of `baz_time_keeper::work`: the new state and the return value. -/
def baz_time_keeper.work (self : baz_time_keeper) (noutput_items : Nat) (nread : Nat)
    (tags : List tag_t) : baz_time_keeper × Int :=
  (self.work_state noutput_items nread tags, (noutput_items : Int))

/-- A run of invocations that deliver no tag; each entry is `(noutput_items, nread)`. -/
def work_untagged (self : baz_time_keeper) (calls : List (Nat × Nat)) : baz_time_keeper :=
  calls.foldl (fun s c => (s.work c.1 c.2 []).1) self

/-! ## Theorems: floating-point rounding -/

theorem roundHalfEven_nonneg (y : ℚ) (h : 0 ≤ y) : 0 ≤ roundHalfEven y := by
  have hf : (0 : Int) ≤ ⌊y⌋ := Int.floor_nonneg.mpr h
  unfold roundHalfEven
  simp only
  split_ifs <;> omega

theorem abs_roundHalfEven_sub_le (y : ℚ) : |(roundHalfEven y : ℚ) - y| ≤ 1 / 2 := by
  have h1 : (⌊y⌋ : ℚ) ≤ y := Int.floor_le y
  have h2 : y < ⌊y⌋ + 1 := Int.lt_floor_add_one y
  unfold roundHalfEven
  simp only
  split_ifs with ha hb hc <;> rw [abs_le] <;> constructor <;> push_cast <;> linarith

theorem roundFloat_zero (p : Nat) (emin : Int) : roundFloat p emin 0 = 0 := by
  simp [roundFloat]

theorem roundFloat_nonneg (p : Nat) (emin : Int) (x : ℚ) (h : 0 ≤ x) :
    0 ≤ roundFloat p emin x := by
  unfold roundFloat
  split_ifs
  · exact le_refl _
  · simp only
    have hq : (0 : ℚ) < (2 : ℚ) ^ (max (ilog2 x) emin - ((p : Int) - 1)) :=
      zpow_pos (by norm_num) _
    exact mul_nonneg (by exact_mod_cast roundHalfEven_nonneg _ (div_nonneg h (le_of_lt hq)))
      (le_of_lt hq)

theorem log2Fuel_bounds : ∀ (fuel n : Nat), 0 < n → n ≤ fuel →
    2 ^ log2Fuel fuel n ≤ n ∧ n < 2 ^ (log2Fuel fuel n + 1) := by
  intro fuel
  induction fuel with
  | zero => intro n h1 h2; omega
  | succ fuel ih =>
    intro n h1 h2
    rw [log2Fuel]
    by_cases h : 2 ≤ n
    · rw [if_pos h]
      obtain ⟨a, b⟩ := ih (n / 2) (by omega) (by omega)
      rw [pow_succ] at b ⊢
      rw [pow_succ]
      constructor <;> omega
    · rw [if_neg h]
      simp
      omega

theorem abs_eq_natAbs_div_den (x : ℚ) : |x| = (x.num.natAbs : ℚ) / (x.den : ℚ) := by
  have hd : (0 : ℚ) < (x.den : ℚ) := by exact_mod_cast x.den_pos
  conv_lhs => rw [← Rat.num_div_den x]
  rw [abs_div, abs_of_pos hd, Nat.cast_natAbs, Int.cast_abs]

theorem ilog2_bounds (x : ℚ) (hx : x ≠ 0) :
    (2 : ℚ) ^ ilog2 x ≤ |x| ∧ |x| < (2 : ℚ) ^ (ilog2 x + 1) := by
  have hn : 0 < x.num.natAbs := Int.natAbs_pos.mpr (Rat.num_ne_zero.mpr hx)
  have hd : 0 < x.den := x.den_pos
  obtain ⟨na, nb⟩ := log2Fuel_bounds _ _ hn (le_refl _)
  obtain ⟨da, db⟩ := log2Fuel_bounds _ _ hd (le_refl _)
  have hxabs := abs_eq_natAbs_div_den x
  have hdq : (0 : ℚ) < (x.den : ℚ) := by exact_mod_cast hd
  have na' : (2 : ℚ) ^ log2Fuel x.num.natAbs x.num.natAbs ≤ (x.num.natAbs : ℚ) := by
    exact_mod_cast na
  have nb' : (x.num.natAbs : ℚ) < (2 : ℚ) ^ (log2Fuel x.num.natAbs x.num.natAbs + 1) := by
    exact_mod_cast nb
  have da' : (2 : ℚ) ^ log2Fuel x.den x.den ≤ (x.den : ℚ) := by exact_mod_cast da
  have db' : (x.den : ℚ) < (2 : ℚ) ^ (log2Fuel x.den x.den + 1) := by exact_mod_cast db
  have hpa : (0 : ℚ) < (2 : ℚ) ^ log2Fuel x.num.natAbs x.num.natAbs := pow_pos (by norm_num) _
  have hpb : (0 : ℚ) < (2 : ℚ) ^ log2Fuel x.den x.den := pow_pos (by norm_num) _
  -- the two estimates of |x| by powers of two
  have hup : |x| < (2 : ℚ) ^ ((log2Fuel x.num.natAbs x.num.natAbs : Int) -
      (log2Fuel x.den x.den : Int) + 1) := by
    rw [hxabs, zpow_add₀ (by norm_num), zpow_sub₀ (by norm_num), zpow_natCast, zpow_natCast,
      zpow_one, div_lt_iff₀ hdq]
    rw [pow_succ] at nb'
    calc (x.num.natAbs : ℚ) < 2 ^ log2Fuel x.num.natAbs x.num.natAbs * 2 := nb'
      _ = 2 ^ log2Fuel x.num.natAbs x.num.natAbs / 2 ^ log2Fuel x.den x.den * 2 *
            2 ^ log2Fuel x.den x.den := by field_simp
      _ ≤ 2 ^ log2Fuel x.num.natAbs x.num.natAbs / 2 ^ log2Fuel x.den x.den * 2 *
            (x.den : ℚ) := by
          apply mul_le_mul_of_nonneg_left da'
          positivity
  have hlo : (2 : ℚ) ^ ((log2Fuel x.num.natAbs x.num.natAbs : Int) -
      (log2Fuel x.den x.den : Int) - 1) ≤ |x| := by
    rw [hxabs, zpow_sub₀ (by norm_num), zpow_sub₀ (by norm_num), zpow_natCast, zpow_natCast,
      zpow_one, le_div_iff₀ hdq]
    rw [pow_succ] at db'
    calc 2 ^ log2Fuel x.num.natAbs x.num.natAbs / 2 ^ log2Fuel x.den x.den / 2 * (x.den : ℚ)
        ≤ 2 ^ log2Fuel x.num.natAbs x.num.natAbs / 2 ^ log2Fuel x.den x.den / 2 *
            (2 ^ log2Fuel x.den x.den * 2) := by
          apply mul_le_mul_of_nonneg_left (le_of_lt db')
          positivity
      _ = 2 ^ log2Fuel x.num.natAbs x.num.natAbs := by field_simp
      _ ≤ (x.num.natAbs : ℚ) := na'
  unfold ilog2
  simp only
  split_ifs with h
  · exact ⟨h, hup⟩
  · refine ⟨hlo, ?_⟩
    have e : (log2Fuel x.num.natAbs x.num.natAbs : Int) - (log2Fuel x.den x.den : Int) - 1 + 1 =
        (log2Fuel x.num.natAbs x.num.natAbs : Int) - (log2Fuel x.den x.den : Int) := by ring
    rw [e]
    exact lt_of_not_le h

/-- The relative rounding error in the normal range is at most `2^(-p)`. -/
theorem roundFloat_error (p : Nat) (emin : Int) (x : ℚ) (hx : x ≠ 0) (he : emin ≤ ilog2 x) :
    |roundFloat p emin x - x| ≤ |x| / 2 ^ p := by
  obtain ⟨hlo, _⟩ := ilog2_bounds x hx
  unfold roundFloat
  rw [if_neg hx]
  simp only
  rw [max_eq_left he]
  have hq : (0 : ℚ) < (2 : ℚ) ^ (ilog2 x - ((p : Int) - 1)) := zpow_pos (by norm_num) _
  have h1 := abs_roundHalfEven_sub_le (x / (2 : ℚ) ^ (ilog2 x - ((p : Int) - 1)))
  have h2 : (roundHalfEven (x / (2 : ℚ) ^ (ilog2 x - ((p : Int) - 1))) : ℚ) *
      (2 : ℚ) ^ (ilog2 x - ((p : Int) - 1)) - x =
      ((roundHalfEven (x / (2 : ℚ) ^ (ilog2 x - ((p : Int) - 1))) : ℚ) -
        x / (2 : ℚ) ^ (ilog2 x - ((p : Int) - 1))) * (2 : ℚ) ^ (ilog2 x - ((p : Int) - 1)) := by
    field_simp
  rw [h2, abs_mul, abs_of_pos hq]
  have h3 : (2 : ℚ) ^ (ilog2 x - ((p : Int) - 1)) = (2 : ℚ) ^ ilog2 x / 2 ^ p * 2 := by
    rw [zpow_sub₀ (by norm_num), zpow_sub₀ (by norm_num), zpow_natCast, zpow_one]
    field_simp
  calc |(roundHalfEven (x / (2 : ℚ) ^ (ilog2 x - ((p : Int) - 1))) : ℚ) -
        x / (2 : ℚ) ^ (ilog2 x - ((p : Int) - 1))| * (2 : ℚ) ^ (ilog2 x - ((p : Int) - 1))
      ≤ 1 / 2 * (2 : ℚ) ^ (ilog2 x - ((p : Int) - 1)) :=
        mul_le_mul_of_nonneg_right h1 (le_of_lt hq)
    _ = (2 : ℚ) ^ ilog2 x / 2 ^ p := by rw [h3]; ring
    _ ≤ |x| / 2 ^ p := by
        apply div_le_div_of_nonneg_right hlo
        positivity

theorem fl32_zero : fl32 0 = 0 := roundFloat_zero _ _

theorem fl32_nonneg (x : ℚ) (h : 0 ≤ x) : 0 ≤ fl32 x := roundFloat_nonneg _ _ x h

/-- The average stays 0 on samples that are 0. -/
theorem ave_step_zero (alpha : ℚ) : ave_step alpha 0 0 = 0 := by
  simp [ave_step, fl32_zero]

/-- The average stays non-negative on non-negative samples, for `alpha` in `[0, 1]`. -/
theorem ave_step_nonneg (alpha ave x : ℚ) (h0 : 0 ≤ alpha) (h1 : alpha ≤ 1) (ha : 0 ≤ ave)
    (hx : 0 ≤ x) : 0 ≤ ave_step alpha ave x := by
  unfold ave_step
  apply fl32_nonneg
  apply add_nonneg
  · exact fl32_nonneg _ (mul_nonneg h0 hx)
  · exact fl32_nonneg _ (mul_nonneg (fl32_nonneg _ (by linarith)) ha)

theorem threshold_zero (drop : ℚ) : threshold 0 drop = 0 := by
  simp [threshold, fl32_zero]

/-- With `drop = 0` the threshold of a non-negative average is non-negative. -/
theorem threshold_nonneg (ave : ℚ) (h : 0 ≤ ave) : 0 ≤ threshold ave 0 := by
  unfold threshold
  apply fl32_nonneg
  simp [fl32_zero, h]

theorem roundHalfEven_bounds (y : ℚ) :
    ⌊y⌋ ≤ roundHalfEven y ∧ roundHalfEven y ≤ ⌊y⌋ + 1 := by
  unfold roundHalfEven
  simp only
  split_ifs <;> constructor <;> omega

theorem roundHalfEven_intCast (n : Int) : roundHalfEven (n : ℚ) = n := by
  unfold roundHalfEven
  simp

theorem roundHalfEven_mono (y z : ℚ) (h : y ≤ z) : roundHalfEven y ≤ roundHalfEven z := by
  have hf : ⌊y⌋ ≤ ⌊z⌋ := Int.floor_mono h
  rcases lt_or_eq_of_le hf with hlt | heq
  · have h1 := (roundHalfEven_bounds y).2
    have h2 := (roundHalfEven_bounds z).1
    omega
  · unfold roundHalfEven
    simp only
    rw [heq]
    split_ifs <;> first | omega | (exfalso; linarith)

theorem roundHalfEven_neg (y : ℚ) : roundHalfEven (-y) = -roundHalfEven y := by
  have h1 : (⌊y⌋ : ℚ) ≤ y := Int.floor_le y
  have h2 : y < ⌊y⌋ + 1 := Int.lt_floor_add_one y
  by_cases hy : y = ⌊y⌋
  · rw [hy, ← Int.cast_neg, roundHalfEven_intCast, roundHalfEven_intCast]
  · have hlt : (⌊y⌋ : ℚ) < y := lt_of_le_of_ne h1 (fun h => hy h.symm)
    have hfl : ⌊-y⌋ = -⌊y⌋ - 1 := by
      rw [Int.floor_eq_iff]
      push_cast
      constructor <;> linarith
    unfold roundHalfEven
    simp only
    rw [hfl]
    push_cast
    split_ifs <;> first | omega | (exfalso; linarith)

theorem ilog2_neg (x : ℚ) : ilog2 (-x) = ilog2 x := by
  unfold ilog2
  simp

theorem roundFloat_neg (p : Nat) (emin : Int) (x : ℚ) :
    roundFloat p emin (-x) = -roundFloat p emin x := by
  unfold roundFloat
  by_cases hx : x = 0
  · simp [hx]
  · have hx' : -x ≠ 0 := neg_ne_zero.mpr hx
    rw [if_neg hx, if_neg hx']
    simp only
    rw [ilog2_neg, neg_div, roundHalfEven_neg]
    push_cast
    ring

theorem roundFloat_nonpos (p : Nat) (emin : Int) (x : ℚ) (h : x ≤ 0) :
    roundFloat p emin x ≤ 0 := by
  have h1 := roundFloat_nonneg p emin (-x) (by linarith)
  rw [roundFloat_neg] at h1
  linarith

theorem ilog2_mono (x y : ℚ) (hx : 0 < x) (h : x ≤ y) : ilog2 x ≤ ilog2 y := by
  have hy : 0 < y := lt_of_lt_of_le hx h
  obtain ⟨hxl, _⟩ := ilog2_bounds x (ne_of_gt hx)
  obtain ⟨_, hyu⟩ := ilog2_bounds y (ne_of_gt hy)
  rw [abs_of_pos hx] at hxl
  rw [abs_of_pos hy] at hyu
  by_contra hcon
  have h2 : (2 : ℚ) ^ (ilog2 y + 1) ≤ (2 : ℚ) ^ ilog2 x :=
    zpow_le_zpow_right₀ (by norm_num) (by omega)
  linarith

/-- Rounding is monotone on the positive numbers. -/
theorem roundFloat_mono_pos (p : Nat) (emin : Int) (hp : 1 ≤ p) (x y : ℚ) (hx : 0 < x)
    (h : x ≤ y) : roundFloat p emin x ≤ roundFloat p emin y := by
  have hy : 0 < y := lt_of_lt_of_le hx h
  have hil := ilog2_mono x y hx h
  obtain ⟨_, hxu⟩ := ilog2_bounds x (ne_of_gt hx)
  obtain ⟨hyl, _⟩ := ilog2_bounds y (ne_of_gt hy)
  rw [abs_of_pos hx] at hxu
  rw [abs_of_pos hy] at hyl
  unfold roundFloat
  rw [if_neg (ne_of_gt hx), if_neg (ne_of_gt hy)]
  simp only
  have hqx : (0 : ℚ) < (2 : ℚ) ^ (max (ilog2 x) emin - ((p : Int) - 1)) :=
    zpow_pos (by norm_num) _
  have hqy : (0 : ℚ) < (2 : ℚ) ^ (max (ilog2 y) emin - ((p : Int) - 1)) :=
    zpow_pos (by norm_num) _
  rcases lt_or_eq_of_le (max_le_max hil (le_refl emin)) with hlt | heq
  · -- the exponents differ: a power of two lies between the two rounded values
    have hey : max (ilog2 y) emin = ilog2 y := by
      rcases le_total (ilog2 y) emin with hle | hle
      · rw [max_eq_right hle] at hlt
        have := le_max_right (ilog2 x) emin
        omega
      · exact max_eq_left hle
    have hex1 : ilog2 x + 1 ≤ max (ilog2 x) emin + 1 := by
      have := le_max_left (ilog2 x) emin
      omega
    -- the rounded x is at most 2 ^ (ex + 1)
    have hxq : x / (2 : ℚ) ^ (max (ilog2 x) emin - ((p : Int) - 1)) ≤
        (((2 : Int) ^ p : Int) : ℚ) := by
      rw [div_le_iff₀ hqx]
      push_cast
      rw [← zpow_natCast, ← zpow_add₀ (by norm_num)]
      have e : (p : Int) + (max (ilog2 x) emin - ((p : Int) - 1)) =
          max (ilog2 x) emin + 1 := by ring
      rw [e]
      have : (2 : ℚ) ^ (ilog2 x + 1) ≤ (2 : ℚ) ^ (max (ilog2 x) emin + 1) :=
        zpow_le_zpow_right₀ (by norm_num) hex1
      linarith
    have hrx := roundHalfEven_mono _ _ hxq
    rw [roundHalfEven_intCast] at hrx
    have hrx' : (roundHalfEven (x / (2 : ℚ) ^ (max (ilog2 x) emin - ((p : Int) - 1))) : ℚ) ≤
        (2 : ℚ) ^ (p : Int) := by
      rw [zpow_natCast]
      exact_mod_cast hrx
    have hupper : (roundHalfEven (x / (2 : ℚ) ^ (max (ilog2 x) emin - ((p : Int) - 1))) : ℚ) *
        (2 : ℚ) ^ (max (ilog2 x) emin - ((p : Int) - 1)) ≤
        (2 : ℚ) ^ (max (ilog2 x) emin + 1) := by
      have e : (2 : ℚ) ^ (max (ilog2 x) emin + 1) =
          (2 : ℚ) ^ (p : Int) * (2 : ℚ) ^ (max (ilog2 x) emin - ((p : Int) - 1)) := by
        rw [← zpow_add₀ (by norm_num)]
        congr 1
        ring
      rw [e]
      exact mul_le_mul_of_nonneg_right hrx' (le_of_lt hqx)
    -- the rounded y is at least 2 ^ ey
    have hyq : ((((2 : Int) ^ (p - 1) : Int)) : ℚ) ≤
        y / (2 : ℚ) ^ (max (ilog2 y) emin - ((p : Int) - 1)) := by
      rw [le_div_iff₀ hqy, hey]
      push_cast
      rw [← zpow_natCast, ← zpow_add₀ (by norm_num)]
      have e : (((p - 1 : Nat) : Int)) + (ilog2 y - ((p : Int) - 1)) = ilog2 y := by
        have : ((p - 1 : Nat) : Int) = (p : Int) - 1 := by omega
        rw [this]; ring
      rw [e]
      exact hyl
    have hry := roundHalfEven_mono _ _ hyq
    rw [roundHalfEven_intCast] at hry
    have hry' : (2 : ℚ) ^ (((p - 1 : Nat) : Int)) ≤
        (roundHalfEven (y / (2 : ℚ) ^ (max (ilog2 y) emin - ((p : Int) - 1))) : ℚ) := by
      rw [zpow_natCast]
      exact_mod_cast hry
    have hlower : (2 : ℚ) ^ (max (ilog2 y) emin) ≤
        (roundHalfEven (y / (2 : ℚ) ^ (max (ilog2 y) emin - ((p : Int) - 1))) : ℚ) *
        (2 : ℚ) ^ (max (ilog2 y) emin - ((p : Int) - 1)) := by
      have e : (2 : ℚ) ^ (max (ilog2 y) emin) =
          (2 : ℚ) ^ (((p - 1 : Nat) : Int)) *
            (2 : ℚ) ^ (max (ilog2 y) emin - ((p : Int) - 1)) := by
        rw [← zpow_add₀ (by norm_num)]
        congr 1
        have : ((p - 1 : Nat) : Int) = (p : Int) - 1 := by omega
        rw [this]; ring
      rw [e]
      exact mul_le_mul_of_nonneg_right hry' (le_of_lt hqy)
    have hmid : (2 : ℚ) ^ (max (ilog2 x) emin + 1) ≤ (2 : ℚ) ^ (max (ilog2 y) emin) :=
      zpow_le_zpow_right₀ (by norm_num) (by omega)
    linarith
  · -- the same exponent: the same spacing
    rw [heq]
    apply mul_le_mul_of_nonneg_right _ (le_of_lt hqy)
    have : x / (2 : ℚ) ^ (max (ilog2 y) emin - ((p : Int) - 1)) ≤
        y / (2 : ℚ) ^ (max (ilog2 y) emin - ((p : Int) - 1)) :=
      div_le_div_of_nonneg_right h (le_of_lt hqy)
    exact_mod_cast roundHalfEven_mono _ _ this

/-- Rounding to nearest is monotone. -/
theorem roundFloat_mono (p : Nat) (emin : Int) (hp : 1 ≤ p) (x y : ℚ) (h : x ≤ y) :
    roundFloat p emin x ≤ roundFloat p emin y := by
  rcases lt_trichotomy 0 x with hx | hx | hx
  · exact roundFloat_mono_pos p emin hp x y hx h
  · rw [← hx, roundFloat_zero]
    exact roundFloat_nonneg p emin y (by linarith)
  · rcases le_or_lt 0 y with hy | hy
    · exact le_trans (roundFloat_nonpos p emin x (le_of_lt hx)) (roundFloat_nonneg p emin y hy)
    · have h1 := roundFloat_mono_pos p emin hp (-y) (-x) (by linarith) (by linarith)
      rw [roundFloat_neg, roundFloat_neg] at h1
      linarith

theorem fl64_mono (x y : ℚ) (h : x ≤ y) : fl64 x ≤ fl64 y :=
  roundFloat_mono 53 (-1022) (by norm_num) x y h

/-- A multiple `m * 2^j` of a power of two with `|m| < 2^p`, not below the subnormal
spacing, is a value of the format: rounding leaves it alone. -/
theorem roundFloat_representable (p : Nat) (emin : Int) (m j : Int)
    (hm : |m| < 2 ^ p) (hj : emin - ((p : Int) - 1) ≤ j) :
    roundFloat p emin ((m : ℚ) * (2 : ℚ) ^ j) = (m : ℚ) * (2 : ℚ) ^ j := by
  by_cases hm0 : m = 0
  · rw [hm0]; simp [roundFloat_zero]
  have h2j : (0 : ℚ) < (2 : ℚ) ^ j := zpow_pos (by norm_num) _
  have hx : (m : ℚ) * (2 : ℚ) ^ j ≠ 0 :=
    mul_ne_zero (by exact_mod_cast hm0) (ne_of_gt h2j)
  obtain ⟨hlo, _⟩ := ilog2_bounds _ hx
  have hmq : |(m : ℚ)| < (2 : ℚ) ^ (p : Int) := by
    rw [zpow_natCast]
    exact_mod_cast hm
  have habs : |(m : ℚ) * (2 : ℚ) ^ j| < (2 : ℚ) ^ ((p : Int) + j) := by
    rw [abs_mul, abs_of_pos h2j, zpow_add₀ (by norm_num)]
    exact mul_lt_mul_of_pos_right hmq h2j
  have hil : ilog2 ((m : ℚ) * (2 : ℚ) ^ j) < (p : Int) + j := by
    by_contra hcon
    have : (2 : ℚ) ^ ((p : Int) + j) ≤ (2 : ℚ) ^ ilog2 ((m : ℚ) * (2 : ℚ) ^ j) :=
      zpow_le_zpow_right₀ (by norm_num) (by omega)
    linarith
  have he : max (ilog2 ((m : ℚ) * (2 : ℚ) ^ j)) emin - ((p : Int) - 1) ≤ j := by
    rcases le_total (ilog2 ((m : ℚ) * (2 : ℚ) ^ j)) emin with hle | hle
    · rw [max_eq_right hle]; exact hj
    · rw [max_eq_left hle]; omega
  obtain ⟨d, hd⟩ : ∃ d : Nat, j = max (ilog2 ((m : ℚ) * (2 : ℚ) ^ j)) emin -
      ((p : Int) - 1) + (d : Int) :=
    ⟨(j - (max (ilog2 ((m : ℚ) * (2 : ℚ) ^ j)) emin - ((p : Int) - 1))).toNat, by omega⟩
  unfold roundFloat
  rw [if_neg hx]
  simp only
  have hq : (0 : ℚ) < (2 : ℚ) ^ (max (ilog2 ((m : ℚ) * (2 : ℚ) ^ j)) emin - ((p : Int) - 1)) :=
    zpow_pos (by norm_num) _
  have hdiv : (m : ℚ) * (2 : ℚ) ^ j /
      (2 : ℚ) ^ (max (ilog2 ((m : ℚ) * (2 : ℚ) ^ j)) emin - ((p : Int) - 1)) =
      ((m * 2 ^ d : Int) : ℚ) := by
    rw [div_eq_iff (ne_of_gt hq)]
    push_cast
    conv_lhs => rw [hd]
    rw [zpow_add₀ (by norm_num), zpow_natCast]
    ring
  rw [hdiv, roundHalfEven_intCast, ← hdiv]
  field_simp

/-! ## Theorems: depuncturer -/

theorem keepsBefore_succ (p : List Int) (j : Nat) :
    keepsBefore p (j + 1) = keepsBefore p j + (if patternAt p j ≠ 0 then 1 else 0) := by
  unfold keepsBefore
  rw [List.range_succ, List.filter_append, List.length_append]
  by_cases h : patternAt p j = 0 <;> simp [h]

theorem keepsBefore_mono (p : List Int) (j : Nat) : ∀ n, keepsBefore p j ≤ keepsBefore p (j + n)
  | 0 => le_refl _
  | n + 1 => by
    have h := keepsBefore_mono p j n
    rw [← Nat.add_assoc, keepsBefore_succ]
    omega

theorem patternAt_getElem_opt (m : List Int) (hm : m ≠ []) (j : Nat) :
    m[j % m.length]? = some (patternAt m j) := by
  have hlt : j % m.length < m.length := Nat.mod_lt _ (List.length_pos.mpr hm)
  unfold patternAt
  rw [List.getD_eq_getElem?_getD, List.getElem?_eq_getElem hlt]; rfl

/-- One iteration on the stored pattern `m` at cyclic position `j`. -/
theorem general_work_step_replay {α : Type} [Zero α] (m : List Int) (hm : m ≠ [])
    (inp : List α) (rate : ℚ) (j iIn : Nat) (out : List α) :
    general_work_step inp
        { self := { m_iLength := m.length, m_pMatrix := some m,
                    m_iIndex := j % m.length, relative_rate := rate },
          iIn := iIn, out := out } =
      if patternAt m j ≠ 0 then
        (inp[iIn]?).map (fun v =>
          { self := { m_iLength := m.length, m_pMatrix := some m,
                      m_iIndex := (j + 1) % m.length, relative_rate := rate },
            iIn := iIn + 1, out := out ++ [v] })
      else
        some { self := { m_iLength := m.length, m_pMatrix := some m,
                         m_iIndex := (j + 1) % m.length, relative_rate := rate },
               iIn := iIn, out := out ++ [0] } := by
  have hlen : m.length ≠ 0 := Nat.pos_iff_ne_zero.mp (List.length_pos.mpr hm)
  have hmod : (j % m.length + 1) % m.length = (j + 1) % m.length := by
    rw [Nat.add_mod, Nat.mod_mod, ← Nat.add_mod]
  simp only [general_work_step, patternAt_getElem_opt m hm, hlen, hmod, if_false]
  by_cases hb : patternAt m j = 0
  · simp [hb]
  · simp only [ne_eq, hb, not_false_eq_true, if_true]
    cases inp[iIn]? <;> rfl

/-- Replay of the stored pattern `m`: the loop started at cyclic position `j` with the
matching input cursor runs `n` iterations and ends at position `j + n`. -/
theorem general_work_loop_replay {α : Type} [Zero α] (m : List Int) (hm : m ≠ [])
    (inp : List α) (rate : ℚ) :
    ∀ (n j : Nat) (out : List α), keepsBefore m (j + n) ≤ inp.length →
      ∃ out', general_work_loop inp n
          { self := { m_iLength := m.length, m_pMatrix := some m,
                      m_iIndex := j % m.length, relative_rate := rate },
            iIn := keepsBefore m j, out := out } =
        some { self := { m_iLength := m.length, m_pMatrix := some m,
                         m_iIndex := (j + n) % m.length, relative_rate := rate },
               iIn := keepsBefore m (j + n), out := out ++ out' } ∧
        out'.length = n ∧
        ∀ t, t < n → out'[t]? =
          if patternAt m (j + t) = 0 then some 0 else inp[keepsBefore m (j + t)]? := by
  intro n
  induction n with
  | zero =>
    intro j out _
    exact ⟨[], by simp [general_work_loop], rfl, by intro t ht; omega⟩
  | succ n ih =>
    intro j out hin
    have e1 : j + (n + 1) = j + 1 + n := by omega
    rw [e1] at hin
    by_cases hb : patternAt m j = 0
    · -- erasure
      have hk : keepsBefore m (j + 1) = keepsBefore m j := by
        rw [keepsBefore_succ]; simp [hb]
      obtain ⟨out', hrun, hl, hspec⟩ := ih (j + 1) (out ++ [0]) hin
      refine ⟨0 :: out', ?_, by simp [hl], ?_⟩
      · rw [general_work_loop, general_work_step_replay m hm]
        simp only [hb, ne_eq, not_true_eq_false, if_false]
        rw [hk] at hrun
        rw [hrun, e1]
        simp
      · intro t ht
        cases t with
        | zero => simp [hb]
        | succ t =>
          have := hspec t (by omega)
          simp only [List.getElem?_cons_succ]
          rw [this]
          have e : j + 1 + t = j + (t + 1) := by omega
          rw [e]
    · -- keep
      have hk : keepsBefore m (j + 1) = keepsBefore m j + 1 := by
        rw [keepsBefore_succ]; simp [hb]
      have hbound : keepsBefore m j < inp.length := by
        have := keepsBefore_mono m (j + 1) n
        omega
      obtain ⟨out', hrun, hl, hspec⟩ := ih (j + 1) (out ++ [inp[keepsBefore m j]]) hin
      refine ⟨inp[keepsBefore m j] :: out', ?_, by simp [hl], ?_⟩
      · rw [general_work_loop, general_work_step_replay m hm]
        simp only [hb, ne_eq, not_false_eq_true, if_true, List.getElem?_eq_getElem hbound,
          Option.map_some']
        rw [hk] at hrun
        rw [hrun, e1]
        simp
      · intro t ht
        cases t with
        | zero => simp [hb, List.getElem?_eq_getElem hbound]
        | succ t =>
          have := hspec t (by omega)
          simp only [List.getElem?_cons_succ]
          rw [this]
          have e : j + 1 + t = j + (t + 1) := by omega
          rw [e]

theorem patternAt_mem (p : List Int) (hne : p ≠ []) (j : Nat) : patternAt p j ∈ p := by
  have hlt : j % p.length < p.length := Nat.mod_lt _ (List.length_pos.mpr hne)
  have h := patternAt_getElem_opt p hne j
  rw [List.getElem?_eq_getElem hlt] at h
  have h' : p[j % p.length] = patternAt p j := Option.some.inj h
  rw [← h']
  exact List.getElem_mem hlt

theorem map_toChar_of_bits (p : List Int) (h01 : ∀ x ∈ p, x = 0 ∨ x = 1) :
    p.map toChar = p := by
  induction p with
  | nil => rfl
  | cons a t ih =>
    have ha : toChar a = a := by
      rcases h01 a (List.mem_cons_self a t) with h | h <;> subst h <;> rfl
    rw [List.map_cons, ha, ih (fun x hx => h01 x (List.mem_cons_of_mem a hx))]

theorem keepsBefore_eq_onesBefore (p : List Int) (hne : p ≠ [])
    (h01 : ∀ x ∈ p, x = 0 ∨ x = 1) (j : Nat) : keepsBefore p j = onesBefore p j := by
  unfold keepsBefore onesBefore
  congr 1
  apply List.filter_congr
  intro i _
  rcases h01 _ (patternAt_mem p hne i) with h | h <;> simp [h]

theorem countOnes_foldl (l : List Int) : ∀ acc : Nat,
    l.foldl (fun iOne x => if x ≠ 0 then iOne + 1 else iOne) acc =
      acc + (l.filter (fun x => x ≠ 0)).length := by
  induction l with
  | nil => intro acc; simp
  | cons a t ih =>
    intro acc
    rw [List.foldl_cons, ih]
    by_cases ha : a = 0
    · simp [ha]
    · simp [ha]; omega

theorem countOnes_eq (l : List Int) : countOnes l = (l.filter (fun x => x ≠ 0)).length := by
  unfold countOnes
  rw [countOnes_foldl]; simp

theorem set_matrix_of_ne_nil (self : baz_depuncture_ff) (p : List Int) (hne : p ≠ []) :
    set_matrix self p =
      { m_iLength := p.length, m_pMatrix := some (p.map toChar), m_iIndex := 0,
        relative_rate := fl64 ((p.length : ℚ) / (countOnes p : ℚ)) } := by
  cases p with
  | nil => exact absurd rfl hne
  | cons a t => rfl

/-- Claim C1 (depuncturer cycling).  After `set_matrix p` with a non-empty 0/1 pattern that
has a 1, one `general_work` call for `N` outputs with enough input returns, reports `N`
items produced, writes at output position `j` a zero when `p[j mod L] = 0` and otherwise
the input sample whose index is the number of 1-entries among the cyclic positions
`0..j-1`, and reports as consumed the number of `j < N` with `p[j mod L] = 1`. -/
theorem depuncture_cycling {α : Type} [Zero α] (self : baz_depuncture_ff) (p : List Int)
    (N : Nat) (inp : List α) (hne : p ≠ []) (h01 : ∀ x ∈ p, x = 0 ∨ x = 1) (hone : 1 ∈ p)
    (hin : onesBefore p N ≤ inp.length) :
    ∃ r, general_work (set_matrix self p) N inp = some r ∧ r.produced = N ∧
      r.out.length = N ∧
      (∀ j, j < N → r.out[j]? =
        if patternAt p j = 0 then some 0 else inp[onesBefore p j]?) ∧
      r.consumed = onesBefore p N := by
  have _ := hone
  have hk : ∀ j, keepsBefore p j = onesBefore p j := keepsBefore_eq_onesBefore p hne h01
  rw [← hk] at hin
  obtain ⟨out', hrun, hl, hspec⟩ :=
    general_work_loop_replay p hne inp (fl64 ((p.length : ℚ) / (countOnes p : ℚ))) N 0 [] (by
      rw [Nat.zero_add]; exact hin)
  have h0 : keepsBefore p 0 = 0 := rfl
  rw [Nat.zero_mod, h0, Nat.zero_add, List.nil_append] at hrun
  refine ⟨{ self := { m_iLength := p.length, m_pMatrix := some p,
                        m_iIndex := N % p.length,
                        relative_rate := fl64 ((p.length : ℚ) / (countOnes p : ℚ)) },
             out := out', consumed := keepsBefore p N, produced := N }, ?_, rfl, hl, ?_, hk N⟩
  · rw [set_matrix_of_ne_nil self p hne, map_toChar_of_bits p h01]
    unfold general_work
    rw [hrun]
  · intro j hj
    have := hspec j hj
    rw [Nat.zero_add] at this
    rw [← hk j]
    exact this

/-- The example of claim C1: pattern `[1,0,1]`, six outputs, four input samples. -/
theorem depuncture_cycling_witness :
    (∃ r, general_work (set_matrix (baz_make_depuncture_ff [1]) [1, 0, 1]) 6
        [(11 : Int), 12, 13, 14] = some r ∧ r.produced = 6 ∧ r.out.length = 6 ∧
      (∀ j, j < 6 → r.out[j]? =
        if patternAt [1, 0, 1] j = 0 then some 0
        else [(11 : Int), 12, 13, 14][onesBefore [1, 0, 1] j]?) ∧
      r.consumed = onesBefore [1, 0, 1] 6) ∧
    onesBefore [1, 0, 1] 6 = 4 ∧
    (List.range 6).map (patternAt [1, 0, 1]) = [1, 0, 1, 1, 0, 1] :=
  ⟨depuncture_cycling (baz_make_depuncture_ff [1]) [1, 0, 1] 6 [(11 : Int), 12, 13, 14]
    (by decide) (by decide) (by decide) (by decide), by decide, by decide⟩

/-- Claim C2 (depuncture rate), the spec's reading refuted.  For the pattern `[1,1,0,1]`
(`L = 4`, `k = 3`) the published rate is the `double` nearest to `4/3`, which is
`6004799503160661 / 2^52` and not the rational `4/3`. -/
theorem depuncture_rate_counterexample :
    (set_matrix (baz_make_depuncture_ff [1]) [1, 1, 0, 1]).relative_rate =
      6004799503160661 / 2 ^ 52 ∧
    (set_matrix (baz_make_depuncture_ff [1]) [1, 1, 0, 1]).relative_rate ≠
      (([1, 1, 0, 1] : List Int).length : ℚ) /
        ((([1, 1, 0, 1] : List Int).filter (fun x => x ≠ 0)).length : ℚ) := by
  decide!

/-- Claim C2 (depuncture rate), amended.  For a non-empty pattern of length `L` with
`k ≥ 1` nonzero entries, `set_matrix` publishes the `double` nearest to `L / k`: the
published rate is `fl64 (L / k)`, it differs from the rational `L / k` by at most
`(L / k) / 2^53`, and it is exactly `L / k` when `k` divides `L` with a quotient below
`2^53`. -/
theorem depuncture_rate (self : baz_depuncture_ff) (p : List Int) (hne : p ≠ [])
    (hk : 1 ≤ (p.filter (fun x => x ≠ 0)).length) :
    (set_matrix self p).relative_rate =
      fl64 ((p.length : ℚ) / ((p.filter (fun x => x ≠ 0)).length : ℚ)) ∧
    |(set_matrix self p).relative_rate -
        (p.length : ℚ) / ((p.filter (fun x => x ≠ 0)).length : ℚ)| ≤
      (p.length : ℚ) / ((p.filter (fun x => x ≠ 0)).length : ℚ) / 2 ^ 53 ∧
    (∀ n : Nat, p.length = n * (p.filter (fun x => x ≠ 0)).length → n < 2 ^ 53 →
      (set_matrix self p).relative_rate =
        (p.length : ℚ) / ((p.filter (fun x => x ≠ 0)).length : ℚ)) := by
  rw [set_matrix_of_ne_nil self p hne, countOnes_eq]
  have hkq : (1 : ℚ) ≤ ((p.filter (fun x => x ≠ 0)).length : ℚ) := by exact_mod_cast hk
  have hLk : ((p.filter (fun x => x ≠ 0)).length : ℚ) ≤ (p.length : ℚ) := by
    exact_mod_cast List.length_filter_le _ _
  have hx1 : (1 : ℚ) ≤ (p.length : ℚ) / ((p.filter (fun x => x ≠ 0)).length : ℚ) := by
    rw [le_div_iff₀ (by linarith)]
    linarith
  have hx0 : (p.length : ℚ) / ((p.filter (fun x => x ≠ 0)).length : ℚ) ≠ 0 := by
    intro h0
    rw [h0] at hx1
    norm_num at hx1
  have hpos : (0 : ℚ) < (p.length : ℚ) / ((p.filter (fun x => x ≠ 0)).length : ℚ) := by
    linarith
  have he : (-1022 : Int) ≤
      ilog2 ((p.length : ℚ) / ((p.filter (fun x => x ≠ 0)).length : ℚ)) := by
    obtain ⟨_, hup⟩ := ilog2_bounds _ hx0
    rw [abs_of_pos hpos] at hup
    by_contra hcon
    have h2 : (2 : ℚ) ^
        (ilog2 ((p.length : ℚ) / ((p.filter (fun x => x ≠ 0)).length : ℚ)) + 1) ≤ 1 :=
      zpow_le_one_of_nonpos₀ (by norm_num) (by omega)
    linarith
  refine ⟨rfl, ?_, ?_⟩
  · have h := roundFloat_error 53 (-1022) _ hx0 he
    rw [abs_of_pos hpos] at h
    exact h
  · intro n hn hn53
    show fl64 _ = _
    have hq : (p.length : ℚ) / ((p.filter (fun x => x ≠ 0)).length : ℚ) = ((n : Int) : ℚ) := by
      rw [hn, div_eq_iff (by linarith)]
      push_cast
      ring
    rw [hq]
    have h := roundFloat_representable 53 (-1022) (n : Int) 0
      (by rw [abs_of_nonneg (by omega)]; exact_mod_cast hn53) (by norm_num)
    rw [zpow_zero, mul_one] at h
    exact h

/-- The amended claim C2 at the pattern `[1,1,0,1]`. -/
theorem depuncture_rate_witness :
    (set_matrix (baz_make_depuncture_ff [1]) [1, 1, 0, 1]).relative_rate =
      fl64 ((([1, 1, 0, 1] : List Int).length : ℚ) /
        ((([1, 1, 0, 1] : List Int).filter (fun x => x ≠ 0)).length : ℚ)) ∧
    |(set_matrix (baz_make_depuncture_ff [1]) [1, 1, 0, 1]).relative_rate -
        (([1, 1, 0, 1] : List Int).length : ℚ) /
          ((([1, 1, 0, 1] : List Int).filter (fun x => x ≠ 0)).length : ℚ)| ≤
      (([1, 1, 0, 1] : List Int).length : ℚ) /
          ((([1, 1, 0, 1] : List Int).filter (fun x => x ≠ 0)).length : ℚ) / 2 ^ 53 ∧
    (∀ n : Nat, ([1, 1, 0, 1] : List Int).length =
        n * (([1, 1, 0, 1] : List Int).filter (fun x => x ≠ 0)).length → n < 2 ^ 53 →
      (set_matrix (baz_make_depuncture_ff [1]) [1, 1, 0, 1]).relative_rate =
        (([1, 1, 0, 1] : List Int).length : ℚ) /
          ((([1, 1, 0, 1] : List Int).filter (fun x => x ≠ 0)).length : ℚ)) :=
  depuncture_rate (baz_make_depuncture_ff [1]) [1, 1, 0, 1] (by decide) (by decide)

/-- Claim C3 (keep/erase on integer patterns), evaluated at the pattern `[256, 1]`:
`set_matrix` counts two nonzero entries and publishes the rate `2 / 2`, but the stored
`char` of the entry 256 is zero, so one full period of two outputs erases position 0 and
consumes a single input sample. -/
theorem depuncture_keep_mismatch :
    countOnes [256, 1] = 2 ∧
    (set_matrix (baz_make_depuncture_ff [1]) [256, 1]).m_pMatrix = some [0, 1] ∧
    (general_work (set_matrix (baz_make_depuncture_ff [1]) [256, 1]) 2
        [(7 : Int), 8]).map (fun r => (r.out, r.consumed, r.produced)) =
      some ([0, 7], 1, 2) := by
  decide

/-! ## Theorems: peak detector -/

/-- Running the loop under an invariant that every iteration re-establishes: the loop does
not return early and the invariant holds at the end. -/
theorem work_loop_invariant (N : Nat) (inp : Nat → ℚ) (I : Nat → PeakLoop → Prop) :
    ∀ (n i : Nat) (st : PeakLoop), I i st →
      (∀ j st, i ≤ j → j < i + n → I j st →
        ∃ st', work_step N inp j st = PeakStep.next st' ∧ I (j + 1) st') →
      ∃ st', work_loop N inp n i st = PeakStep.next st' ∧ I (i + n) st' := by
  intro n
  induction n with
  | zero => intro i st h _; exact ⟨st, rfl, h⟩
  | succ n ih =>
    intro i st h hstep
    obtain ⟨st1, h1, hI1⟩ := hstep i st (le_refl _) (by omega) h
    obtain ⟨st2, h2, hI2⟩ := ih (i + 1) st1 hI1 (fun j st hj hj' hI =>
      hstep j st (by omega) (by omega) hI)
    refine ⟨st2, ?_, ?_⟩
    · rw [work_loop, h1]; exact h2
    · have e : i + (n + 1) = i + 1 + n := by omega
      rw [e]; exact hI2

/-- A sample met while the lockout counter is at least 2 only advances the average and
decrements the counter. -/
theorem work_step_locked (N : Nat) (inp : Nat → ℚ) (i : Nat) (s : baz_peak_detector)
    (out : List ℚ) (h : 2 ≤ s.d_lockout_count) :
    work_step N inp i { self := s, out := out } =
      PeakStep.next
        { self := { s with d_ave := ave_step s.d_alpha s.d_ave (inp (i - 1)),
                           d_lockout_count := s.d_lockout_count - 1 },
          out := out } := by
  have h1 : 0 < s.d_lockout_count := by omega
  have h2 : 0 < s.d_lockout_count - 1 := by omega
  simp only [work_step, h1, h2, if_true]

/-- A sample at or below the threshold, met outside a rising run with no look-ahead
pending, only advances the average and the lockout counter. -/
theorem work_step_quiet (N : Nat) (inp : Nat → ℚ) (i : Nat) (s : baz_peak_detector)
    (out : List ℚ) (hr : s.d_rising = false) (hla : s.d_look_ahead_count = 0)
    (hthr : ¬ inp i > threshold (ave_step s.d_alpha s.d_ave (inp (i - 1))) s.d_drop) :
    work_step N inp i { self := s, out := out } =
      PeakStep.next
        { self := { s with d_ave := ave_step s.d_alpha s.d_ave (inp (i - 1)),
                           d_lockout_count :=
                             if 0 < s.d_lockout_count then s.d_lockout_count - 1
                             else s.d_lockout_count },
          out := out } := by
  by_cases h1 : 0 < s.d_lockout_count
  · by_cases h2 : 0 < s.d_lockout_count - 1
    · simp only [work_step, h1, h2, if_true]
    · simp [work_step, work_detect, work_confirm, h1, h2, hr, hla, hthr]
  · simp [work_step, work_detect, work_confirm, h1, hr, hla, hthr]

/-- The first sample above the threshold outside a lockout starts a rising run and records
the tentative peak; the loop goes on when the look-ahead test of the code does not fire. -/
theorem work_step_rise (N : Nat) (inp : Nat → ℚ) (i : Nat) (s : baz_peak_detector)
    (out : List ℚ) (hlc : s.d_lockout_count ≤ 1) (hr : s.d_rising = false)
    (hthr : inp i > threshold (ave_step s.d_alpha s.d_ave (inp (i - 1))) s.d_drop)
    (hla : ¬ s.d_look_ahead > (N : Int) - ((i : Int) - 1) + 1) :
    work_step N inp i { self := s, out := out } =
      PeakStep.next
        { self := { s with d_ave := ave_step s.d_alpha s.d_ave (inp (i - 1)),
                           d_lockout_count :=
                             if 0 < s.d_lockout_count then s.d_lockout_count - 1
                             else s.d_lockout_count,
                           d_rising := true, d_rise_count := 0 + 1, d_first := inp i,
                           d_peak := inp i, d_look_ahead_count := s.d_look_ahead,
                           d_peak_idx := (i : Int) - 1 },
          out := out } := by
  by_cases h1 : 0 < s.d_lockout_count
  · have h2 : ¬ 0 < s.d_lockout_count - 1 := by omega
    simp [work_step, work_detect, work_rising, h1, h2, hr, hthr, hla]
  · simp [work_step, work_detect, work_rising, h1, hr, hthr, hla]

/-- A sample at or below the threshold that ends a rising run of sufficient length, with
the minimum-rise test disabled, writes the marker and arms the lockout. -/
theorem work_step_confirm (N : Nat) (inp : Nat → ℚ) (i : Nat) (s : baz_peak_detector)
    (out : List ℚ) (hlc : s.d_lockout_count ≤ 1) (hr : s.d_rising = true)
    (hthr : ¬ inp i > threshold (ave_step s.d_alpha s.d_ave (inp (i - 1))) s.d_drop)
    (hla : s.d_look_ahead_count = 0) (hlen : s.d_rise_count ≥ s.d_min_len)
    (hdiff : s.d_min_diff = 0) (hidx : 0 ≤ s.d_peak_idx ∧ s.d_peak_idx < out.length) :
    work_step N inp i { self := s, out := out } =
      PeakStep.next
        { self := { s with d_ave := ave_step s.d_alpha s.d_ave (inp (i - 1)),
                           d_lockout_count := s.d_lockout, d_rising := false },
          out := out.set s.d_peak_idx.toNat 1 } := by
  by_cases h1 : 0 < s.d_lockout_count
  · have h2 : ¬ 0 < s.d_lockout_count - 1 := by omega
    simp [work_step, work_detect, work_confirm, h1, h2, hr, hthr, hla, hlen, hdiff, hidx]
  · simp [work_step, work_detect, work_confirm, h1, hr, hthr, hla, hlen, hdiff, hidx]

/-- Claim C4 (single pulse).  A freshly constructed detector with `min_diff = 0`,
`min_len = 1`, `drop = 0`, `look_ahead = 0`, any lockout `K ≥ 0` and any `alpha` in
`(0,1]`, run once over `N` samples that are 0 except for the value 10 at index `p` with
`p + 1 < N` (history sample 0), returns `N` and leaves 1 at output index `p` and 0 at
every other index. -/
theorem peak_single_pulse (K : Int) (α : ℚ) (N p : Nat) (inp : Nat → ℚ)
    (hK : 0 ≤ K) (hα0 : 0 < α) (hα1 : α ≤ 1) (hp : p + 1 < N)
    (hinp : ∀ j, j ≤ N → inp j = if j = p + 1 then 10 else 0) :
    ∃ r, work (baz_make_peak_detector 0 1 K 0 α 0) N inp = some r ∧
      r.produced = N ∧ r.out.length = N ∧
      ∀ j, j < N → r.out[j]? = some (if j = p then 1 else 0) := by
  have _ := hK
  obtain ⟨st', hrun, hI⟩ := work_loop_invariant N inp
    (fun i st =>
      st.self.d_min_diff = 0 ∧ st.self.d_min_len = 1 ∧ st.self.d_drop = 0 ∧
      st.self.d_alpha = α ∧ st.self.d_look_ahead = 0 ∧ st.self.d_look_ahead_count = 0 ∧
      0 ≤ st.self.d_ave ∧
      (i ≤ p + 1 → st.self.d_rising = false ∧ st.self.d_ave = 0 ∧
        st.self.d_lockout_count ≤ 1 ∧ st.out = List.replicate N 0) ∧
      (i = p + 2 → st.self.d_rising = true ∧ st.self.d_ave = 0 ∧
        st.self.d_lockout_count ≤ 1 ∧ st.self.d_rise_count = 1 ∧
        st.self.d_peak_idx = (p : Int) ∧ st.out = List.replicate N 0) ∧
      (p + 3 ≤ i → st.self.d_rising = false ∧ st.out = (List.replicate N 0).set p 1))
    N 1 { self := baz_make_peak_detector 0 1 K 0 α 0, out := List.replicate N 0 }
    (by
      refine ⟨rfl, rfl, rfl, rfl, rfl, rfl, le_refl _, ?_, ?_, ?_⟩
      · intro _; exact ⟨rfl, rfl, by show (1 : Int) ≤ 1; omega, rfl⟩
      · intro h; omega
      · intro h; omega)
    (by
      rintro j ⟨s, out⟩ hj1 hjN ⟨hmd, hml, hdr, hal, hlk, hlac, hav, hpre, hsp, hpost⟩
      simp only at hmd hml hdr hal hlk hlac hav hpre hsp hpost
      rcases Nat.lt_or_ge j (p + 1) with hlt | hge
      · -- before the pulse
        obtain ⟨hr, ha0, hlc, hout⟩ := hpre (by omega)
        have hx : inp j = 0 := by rw [hinp j (by omega)]; simp; omega
        have hx1 : inp (j - 1) = 0 := by rw [hinp (j - 1) (by omega)]; simp; omega
        have hav' : ave_step s.d_alpha s.d_ave (inp (j - 1)) = 0 := by
          rw [hx1, ha0]; exact ave_step_zero _
        refine ⟨_, work_step_quiet N inp j s out hr hlac
          (by rw [hav', hx, threshold_zero]; exact lt_irrefl _), ?_⟩
        refine ⟨hmd, hml, hdr, hal, hlk, hlac, le_of_eq hav'.symm, ?_, ?_, ?_⟩
        · intro _
          refine ⟨hr, hav', ?_, hout⟩
          show (if 0 < s.d_lockout_count then s.d_lockout_count - 1
            else s.d_lockout_count) ≤ 1
          split_ifs <;> omega
        · intro h; omega
        · intro h; omega
      · rcases Nat.eq_or_lt_of_le hge with heq | hgt
        · -- the pulse
          subst heq
          obtain ⟨hr, ha0, hlc, hout⟩ := hpre (le_refl _)
          have hx : inp (p + 1) = 10 := by rw [hinp (p + 1) (by omega)]; simp
          have hx1 : inp (p + 1 - 1) = 0 := by rw [hinp (p + 1 - 1) (by omega)]; simp
          have hav' : ave_step s.d_alpha s.d_ave (inp (p + 1 - 1)) = 0 := by
            rw [hx1, ha0]; exact ave_step_zero _
          refine ⟨_, work_step_rise N inp (p + 1) s out hlc hr
            (by rw [hav', hx, threshold_zero]; norm_num) (by rw [hlk]; push_cast; omega), ?_⟩
          refine ⟨hmd, hml, hdr, hal, hlk, hlk, le_of_eq hav'.symm, ?_, ?_, ?_⟩
          · intro h; omega
          · intro _
            refine ⟨rfl, hav', ?_, by norm_num, by show ((p + 1 : Nat) : Int) - 1 = p; omega,
              hout⟩
            show (if 0 < s.d_lockout_count then s.d_lockout_count - 1
              else s.d_lockout_count) ≤ 1
            split_ifs <;> omega
          · intro h; omega
        · rcases Nat.eq_or_lt_of_le (Nat.succ_le_of_lt hgt) with heq2 | hgt2
          · -- the sample after the pulse confirms it
            have hj : j = p + 2 := by omega
            subst hj
            obtain ⟨hr, ha0, hlc, hrc, hidx, hout⟩ := hsp rfl
            have hx : inp (p + 2) = 0 := by rw [hinp (p + 2) (by omega)]; simp
            have hx1 : inp (p + 2 - 1) = 10 := by rw [hinp (p + 2 - 1) (by omega)]; simp
            have hav' : 0 ≤ ave_step s.d_alpha s.d_ave (inp (p + 2 - 1)) := by
              rw [hx1, ha0, hal]
              exact ave_step_nonneg _ _ _ (le_of_lt hα0) hα1 (le_refl _) (by norm_num)
            refine ⟨_, work_step_confirm N inp (p + 2) s out hlc hr
              (by rw [hx, hdr]; exact not_lt.mpr (threshold_nonneg _ hav')) hlac
              (by rw [hrc, hml]) hmd
              (by rw [hidx, hout, List.length_replicate]; omega), ?_⟩
            refine ⟨hmd, hml, hdr, hal, hlk, hlac, hav', ?_, ?_, ?_⟩
            · intro h; omega
            · intro h; omega
            · intro _
              refine ⟨rfl, ?_⟩
              show out.set s.d_peak_idx.toNat 1 = _
              rw [hidx, hout, Int.toNat_natCast]
          · -- after the confirmation
            obtain ⟨hr, hout⟩ := hpost (by omega)
            have hx : inp j = 0 := by rw [hinp j (by omega)]; simp; omega
            have hx1 : 0 ≤ inp (j - 1) := by
              rw [hinp (j - 1) (by omega)]; split_ifs <;> norm_num
            have hav' : 0 ≤ ave_step s.d_alpha s.d_ave (inp (j - 1)) := by
              rw [hal]
              exact ave_step_nonneg _ _ _ (le_of_lt hα0) hα1 hav hx1
            refine ⟨_, work_step_quiet N inp j s out hr hlac
              (by rw [hx, hdr]; exact not_lt.mpr (threshold_nonneg _ hav')), ?_⟩
            refine ⟨hmd, hml, hdr, hal, hlk, hlac, hav', ?_, ?_, ?_⟩
            · intro h; omega
            · intro h; omega
            · intro _; exact ⟨hr, hout⟩)
  obtain ⟨_, _, _, _, _, _, _, _, _, hpost⟩ := hI
  obtain ⟨_, hout⟩ := hpost (by omega)
  refine ⟨{ self := st'.self, out := st'.out, produced := N }, ?_, rfl, ?_, ?_⟩
  · unfold work
    rw [Nat.zero_add, hrun]
  · show st'.out.length = N
    rw [hout, List.length_set, List.length_replicate]
  · intro j hj
    show st'.out[j]? = _
    rw [hout, List.getElem?_set]
    by_cases hjp : p = j
    · subst hjp; simp [hj]
    · have hjp' : ¬ j = p := fun h => hjp h.symm
      simp [hjp, hjp', hj]

theorem peak_single_pulse_witness :
    ∃ r, work (baz_make_peak_detector 0 1 2 0 (1 / 2) 0) 4 (streamOf [0, 0, 10, 0, 0]) =
        some r ∧
      r.produced = (4 : Nat) ∧ r.out.length = 4 ∧
      ∀ j, j < 4 → r.out[j]? = some (if j = 1 then 1 else 0) :=
  peak_single_pulse 2 (1 / 2) 4 1 (streamOf [0, 0, 10, 0, 0]) (by decide) (by norm_num)
    (by norm_num) (by decide) (by
      intro j hj
      interval_cases j <;> simp [streamOf])

/-- Claim C5 (lockout).  A freshly constructed detector with `min_diff = 0`, `min_len = 1`,
`drop = 0`, `alpha = 1`, `look_ahead = 0` and lockout `K`, run once over a baseline of 0
(history sample included) with two isolated positive spikes at `p1 < p2`, `p2 ≥ p1 + 2`,
`p2 + 1 < N`, `p2 - p1 < K`, leaves a marker at `p1` and 0 at every other index. -/
theorem peak_lockout (K : Int) (N p1 p2 : Nat) (v1 v2 : ℚ) (inp : Nat → ℚ)
    (hv1 : 0 < v1) (hv2 : 0 < v2) (h12 : p1 + 2 ≤ p2) (hp2 : p2 + 1 < N)
    (hK : (p2 : Int) - (p1 : Int) < K)
    (hinp : ∀ j, j ≤ N →
      inp j = if j = p1 + 1 then v1 else if j = p2 + 1 then v2 else 0) :
    ∃ r, work (baz_make_peak_detector 0 1 K 0 1 0) N inp = some r ∧
      r.produced = N ∧ r.out.length = N ∧
      ∀ j, j < N → r.out[j]? = some (if j = p1 then 1 else 0) := by
  have hnn : ∀ j, j ≤ N → 0 ≤ inp j := by
    intro j hj
    rw [hinp j hj]
    split_ifs <;> linarith
  obtain ⟨st', hrun, hI⟩ := work_loop_invariant N inp
    (fun i st =>
      st.self.d_min_diff = 0 ∧ st.self.d_min_len = 1 ∧ st.self.d_drop = 0 ∧
      st.self.d_alpha = 1 ∧ st.self.d_look_ahead = 0 ∧ st.self.d_lockout = K ∧
      st.self.d_look_ahead_count = 0 ∧ 0 ≤ st.self.d_ave ∧
      (i ≤ p1 + 1 → st.self.d_rising = false ∧ st.self.d_ave = 0 ∧
        st.self.d_lockout_count ≤ 1 ∧ st.out = List.replicate N 0) ∧
      (i = p1 + 2 → st.self.d_rising = true ∧ st.self.d_ave = 0 ∧
        st.self.d_lockout_count ≤ 1 ∧ st.self.d_rise_count = 1 ∧
        st.self.d_peak_idx = (p1 : Int) ∧ st.out = List.replicate N 0) ∧
      (p1 + 3 ≤ i → st.self.d_rising = false ∧ st.out = (List.replicate N 0).set p1 1) ∧
      (p1 + 3 ≤ i → i ≤ p2 + 2 →
        st.self.d_lockout_count = K - ((i : Int) - ((p1 : Int) + 3))))
    N 1 { self := baz_make_peak_detector 0 1 K 0 1 0, out := List.replicate N 0 }
    (by
      refine ⟨rfl, rfl, rfl, rfl, rfl, rfl, rfl, le_refl _, ?_, ?_, ?_, ?_⟩
      · intro _; exact ⟨rfl, rfl, by show (1 : Int) ≤ 1; omega, rfl⟩
      · intro h; omega
      · intro h; omega
      · intro h; omega)
    (by
      rintro j ⟨s, out⟩ hj1 hjN
        ⟨hmd, hml, hdr, hal, hlk, hlo, hlac, hav, hpre, hsp, hpost, hlock⟩
      simp only at hmd hml hdr hal hlk hlo hlac hav hpre hsp hpost hlock
      have havz : inp (j - 1) = 0 → ave_step s.d_alpha s.d_ave (inp (j - 1)) = 0 := by
        intro h0
        rw [hal, h0]
        simp [ave_step, fl32_zero]
      have havnn : 0 ≤ ave_step s.d_alpha s.d_ave (inp (j - 1)) := by
        rw [hal]
        exact ave_step_nonneg _ _ _ (by norm_num) (le_refl _) hav (hnn (j - 1) (by omega))
      rcases Nat.lt_or_ge j (p1 + 1) with hlt | hge
      · -- before the first spike
        obtain ⟨hr, ha0, hlc, hout⟩ := hpre (by omega)
        have hx : inp j = 0 := by
          rw [hinp j (by omega), if_neg (by omega), if_neg (by omega)]
        have hx1 : inp (j - 1) = 0 := by
          rw [hinp (j - 1) (by omega), if_neg (by omega), if_neg (by omega)]
        refine ⟨_, work_step_quiet N inp j s out hr hlac
          (by rw [havz hx1, hx, threshold_zero]; exact lt_irrefl _), ?_⟩
        refine ⟨hmd, hml, hdr, hal, hlk, hlo, hlac, havnn, ?_, ?_, ?_, ?_⟩
        · intro _
          refine ⟨hr, havz hx1, ?_, hout⟩
          show (if 0 < s.d_lockout_count then s.d_lockout_count - 1
            else s.d_lockout_count) ≤ 1
          split_ifs <;> omega
        · intro h; omega
        · intro h; omega
        · intro h; omega
      · rcases Nat.eq_or_lt_of_le hge with heq | hgt
        · -- the first spike
          subst heq
          obtain ⟨hr, ha0, hlc, hout⟩ := hpre (le_refl _)
          have hx : inp (p1 + 1) = v1 := by rw [hinp (p1 + 1) (by omega), if_pos rfl]
          have hx1 : inp (p1 + 1 - 1) = 0 := by
            rw [hinp (p1 + 1 - 1) (by omega), if_neg (by omega), if_neg (by omega)]
          refine ⟨_, work_step_rise N inp (p1 + 1) s out hlc hr
            (by rw [havz hx1, hx, threshold_zero]; exact hv1)
            (by rw [hlk]; push_cast; omega), ?_⟩
          refine ⟨hmd, hml, hdr, hal, hlk, hlo, hlk, havnn, ?_, ?_, ?_, ?_⟩
          · intro h; omega
          · intro _
            refine ⟨rfl, havz hx1, ?_, by norm_num,
              by show ((p1 + 1 : Nat) : Int) - 1 = p1; omega, hout⟩
            show (if 0 < s.d_lockout_count then s.d_lockout_count - 1
              else s.d_lockout_count) ≤ 1
            split_ifs <;> omega
          · intro h; omega
          · intro h; omega
        · rcases Nat.eq_or_lt_of_le (Nat.succ_le_of_lt hgt) with heq2 | hgt2
          · -- the sample after the first spike confirms it and arms the lockout
            have hj : j = p1 + 2 := by omega
            subst hj
            obtain ⟨hr, ha0, hlc, hrc, hidx, hout⟩ := hsp rfl
            have hx : inp (p1 + 2) = 0 := by
              rw [hinp (p1 + 2) (by omega), if_neg (by omega), if_neg (by omega)]
            have hx1 : inp (p1 + 2 - 1) = v1 := by
              rw [hinp (p1 + 2 - 1) (by omega), if_pos (by omega)]
            refine ⟨_, work_step_confirm N inp (p1 + 2) s out hlc hr
              (by rw [hx, hdr]; exact not_lt.mpr (threshold_nonneg _ havnn)) hlac
              (by rw [hrc, hml]) hmd
              (by rw [hidx, hout, List.length_replicate]; omega), ?_⟩
            refine ⟨hmd, hml, hdr, hal, hlk, hlo, hlac, havnn, ?_, ?_, ?_, ?_⟩
            · intro h; omega
            · intro h; omega
            · intro _
              refine ⟨rfl, ?_⟩
              show out.set s.d_peak_idx.toNat 1 = _
              rw [hidx, hout, Int.toNat_natCast]
            · intro _ _
              show s.d_lockout = _
              rw [hlo]; push_cast; omega
          · obtain ⟨hr, hout⟩ := hpost (by omega)
            rcases Nat.lt_or_ge (p2 + 2) j with hafter | hin
            · -- after the lockout window that covers the second spike
              have hx : inp j = 0 := by
                rw [hinp j (by omega), if_neg (by omega), if_neg (by omega)]
              refine ⟨_, work_step_quiet N inp j s out hr hlac
                (by rw [hx, hdr]; exact not_lt.mpr (threshold_nonneg _ havnn)), ?_⟩
              refine ⟨hmd, hml, hdr, hal, hlk, hlo, hlac, havnn, ?_, ?_, ?_, ?_⟩
              · intro h; omega
              · intro h; omega
              · intro _; exact ⟨hr, hout⟩
              · intro _ h; omega
            · -- inside the lockout: the sample is skipped whatever its value
              have hlcv := hlock (by omega) hin
              refine ⟨_, work_step_locked N inp j s out (by rw [hlcv]; omega), ?_⟩
              refine ⟨hmd, hml, hdr, hal, hlk, hlo, hlac, havnn, ?_, ?_, ?_, ?_⟩
              · intro h; omega
              · intro h; omega
              · intro _; exact ⟨hr, hout⟩
              · intro _ _
                show s.d_lockout_count - 1 = _
                rw [hlcv]; push_cast; omega)
  obtain ⟨_, _, _, _, _, _, _, _, _, _, hpost, _⟩ := hI
  obtain ⟨_, hout⟩ := hpost (by omega)
  refine ⟨{ self := st'.self, out := st'.out, produced := N }, ?_, rfl, ?_, ?_⟩
  · unfold work
    rw [Nat.zero_add, hrun]
  · show st'.out.length = N
    rw [hout, List.length_set, List.length_replicate]
  · intro j hj
    show st'.out[j]? = _
    rw [hout, List.getElem?_set]
    by_cases hjp : p1 = j
    · subst hjp; simp [hj]
    · have hjp' : ¬ j = p1 := fun h => hjp h.symm
      simp [hjp, hjp', hj]

theorem peak_lockout_witness :
    ∃ r, work (baz_make_peak_detector 0 1 3 0 1 0) 5 (streamOf [0, 10, 0, 7, 0, 0]) =
        some r ∧
      r.produced = (5 : Nat) ∧ r.out.length = 5 ∧
      ∀ j, j < 5 → r.out[j]? = some (if j = 0 then 1 else 0) :=
  peak_lockout 3 5 0 2 10 7 (streamOf [0, 10, 0, 7, 0, 0]) (by norm_num) (by norm_num)
    (by decide) (by decide) (by decide) (by
      intro j hj
      interval_cases j <;> simp [streamOf])

/-- Splitting the loop: after `a` iterations that do not return, the remaining `b`
iterations go on from the state reached. -/
theorem work_loop_add (N : Nat) (inp : Nat → ℚ) (b : Nat) :
    ∀ (a i : Nat) (st st' : PeakLoop), work_loop N inp a i st = PeakStep.next st' →
      work_loop N inp (a + b) i st = work_loop N inp b (i + a) st' := by
  intro a
  induction a with
  | zero =>
    intro i st st' h
    simp only [work_loop, PeakStep.next.injEq] at h
    subst h
    simp
  | succ a ih =>
    intro i st st' h
    have e : a + 1 + b = (a + b) + 1 := by omega
    rw [e, work_loop]
    rw [work_loop] at h
    cases hs : work_step N inp i st with
    | next st1 =>
      rw [hs] at h
      simp only at h ⊢
      rw [ih (i + 1) st1 st' h]
      congr 1
      omega
    | ret st1 r => rw [hs] at h; simp at h
    | fault => rw [hs] at h; simp at h

theorem work_confirm_look_ahead (inp : Nat → ℚ) (i : Nat) (s : baz_peak_detector)
    (out : List ℚ) (st' : PeakLoop) (h : work_confirm inp i s out = PeakStep.next st') :
    st'.self.d_look_ahead = s.d_look_ahead := by
  simp only [work_confirm] at h
  split_ifs at h <;> cases h <;> rfl

theorem work_rising_look_ahead (N : Nat) (inp : Nat → ℚ) (i : Nat) (s : baz_peak_detector)
    (out : List ℚ) (st' : PeakLoop) (h : work_rising N inp i s out = PeakStep.next st') :
    st'.self.d_look_ahead = s.d_look_ahead := by
  simp only [work_rising] at h
  split_ifs at h <;> cases h <;> rfl

theorem work_detect_look_ahead (N : Nat) (inp : Nat → ℚ) (i : Nat) (s : baz_peak_detector)
    (out : List ℚ) (st' : PeakLoop) (h : work_detect N inp i s out = PeakStep.next st') :
    st'.self.d_look_ahead = s.d_look_ahead := by
  simp only [work_detect] at h
  split_ifs at h
  · exact work_rising_look_ahead N inp i s out st' h
  · cases h; rfl
  · have h2 := work_confirm_look_ahead inp i _ out st' h
    exact h2
  · exact work_confirm_look_ahead inp i s out st' h

/-- An iteration never changes the configured look-ahead. -/
theorem work_step_look_ahead (N : Nat) (inp : Nat → ℚ) (i : Nat) (st st' : PeakLoop)
    (h : work_step N inp i st = PeakStep.next st') :
    st'.self.d_look_ahead = st.self.d_look_ahead := by
  simp only [work_step] at h
  split_ifs at h
  · cases h; rfl
  · have h2 := work_detect_look_ahead N inp i _ st.out st' h
    exact h2
  · have h2 := work_detect_look_ahead N inp i _ st.out st' h
    exact h2

theorem work_loop_look_ahead (N : Nat) (inp : Nat → ℚ) :
    ∀ (n i : Nat) (st st' : PeakLoop), work_loop N inp n i st = PeakStep.next st' →
      st'.self.d_look_ahead = st.self.d_look_ahead := by
  intro n
  induction n with
  | zero =>
    intro i st st' h
    simp only [work_loop, PeakStep.next.injEq] at h
    subst h; rfl
  | succ n ih =>
    intro i st st' h
    rw [work_loop] at h
    cases hs : work_step N inp i st with
    | next st1 =>
      rw [hs] at h
      simp only at h
      rw [ih (i + 1) st1 st' h, work_step_look_ahead N inp i st st1 hs]
    | ret st1 r => rw [hs] at h; simp at h
    | fault => rw [hs] at h; simp at h

/-- A result read off an evaluated optional value. -/
theorem exists_of_map_decide {α : Type} (o : Option α) (P : α → Prop) [DecidablePred P]
    (h : o.map (fun r => decide (P r)) = some true) : ∃ r, o = some r ∧ P r := by
  cases o with
  | none => simp at h
  | some r => exact ⟨r, rfl, by simpa using h⟩

/-- An iteration that records a tentative peak while the configured look-ahead exceeds
`noutput_items - (i - 1) + 1` makes `work` return `(i - 1) + 1`. -/
theorem work_step_early_return (N : Nat) (inp : Nat → ℚ) (i : Nat) (st : PeakLoop)
    (hnew : new_peak_at inp i st.self = true)
    (hla : st.self.d_look_ahead > (N : Int) - ((i : Int) - 1) + 1) :
    ∃ st', work_step N inp i st = PeakStep.ret st' (((i : Int) - 1) + 1) := by
  simp only [new_peak_at, Bool.and_eq_true, Bool.or_eq_true, decide_eq_true_eq] at hnew
  obtain ⟨⟨hlc, hthr⟩, hpk⟩ := hnew
  by_cases h1 : 0 < st.self.d_lockout_count
  · rw [if_pos h1] at hlc
    by_cases hr : st.self.d_rising = false
    · simp [work_step, work_detect, work_rising, h1, hlc, hthr, hr, hla]
    · have hpk' : inp i > st.self.d_peak := by
        rcases hpk with h | h
        · exact absurd h hr
        · exact h
      simp [work_step, work_detect, work_rising, h1, hlc, hthr, hr, hla, hpk']
  · rw [if_neg h1] at hlc
    by_cases hr : st.self.d_rising = false
    · simp [work_step, work_detect, work_rising, h1, hthr, hr, hla]
    · have hpk' : inp i > st.self.d_peak := by
        rcases hpk with h | h
        · exact absurd h hr
        · exact h
      simp [work_step, work_detect, work_rising, h1, hthr, hr, hla, hpk']

/-- Claim C6 as stated fails on the code, in two ways.  With `look_ahead = 1` and a spike
at the last index 2 of a 3-sample buffer the confirmation window reaches past the buffer
(`2 + 1 > 3 - 1`), yet the test `look_ahead > noutput_items - 2 + 1` does not fire and
`work` returns 3.  With `look_ahead = 5` the test fires, and the value returned is
`2 + 1 = 3`, again not less than 3. -/
theorem peak_partial_return_counterexample :
    (records_peak (baz_make_peak_detector 0 1 0 0 1 1) 3 (streamOf [0, 0, 0, 10]) 2 = true ∧
      (2 : Int) + (baz_make_peak_detector 0 1 0 0 1 1).d_look_ahead > 3 - 1 ∧
      ∃ r, work (baz_make_peak_detector 0 1 0 0 1 1) 3 (streamOf [0, 0, 0, 10]) = some r ∧
        ¬ r.produced < 3) ∧
    (records_peak (baz_make_peak_detector 0 1 0 0 1 5) 3 (streamOf [0, 0, 0, 10]) 2 = true ∧
      (2 : Int) + (baz_make_peak_detector 0 1 0 0 1 5).d_look_ahead > 3 - 1 ∧
      ∃ r, work (baz_make_peak_detector 0 1 0 0 1 5) 3 (streamOf [0, 0, 0, 10]) = some r ∧
        ¬ r.produced < 3) := by
  refine ⟨⟨?_, by decide, ?_⟩, ⟨?_, by decide, ?_⟩⟩
  · decide!
  · exact exists_of_map_decide _ _ (by decide!)
  · decide!
  · exact exists_of_map_decide _ _ (by decide!)

/-- Claim C6, amended.  When a tentative peak is recorded at an output index `p` that is
not the last one (`p + 1 < N`) and the configured look-ahead exceeds `N - p + 1`, the test
of the code, the invocation returns the produced count `p + 1`, strictly less than `N`. -/
theorem peak_partial_return (self : baz_peak_detector) (N p : Nat) (inp : Nat → ℚ)
    (hrec : records_peak self N inp p = true)
    (hla : self.d_look_ahead > (N : Int) - (p : Int) + 1) (hp : p + 1 < N) :
    ∃ r, work self N inp = some r ∧ r.produced = (p : Int) + 1 ∧ r.produced < (N : Int) := by
  unfold records_peak at hrec
  cases hst : work_state_at self N inp p with
  | none => rw [hst] at hrec; simp at hrec
  | some st =>
    rw [hst] at hrec
    simp only [Bool.and_eq_true, decide_eq_true_eq] at hrec
    obtain ⟨_, hnew⟩ := hrec
    unfold work_state_at at hst
    cases hl : work_loop N inp p (0 + 1) { self := self, out := List.replicate N 0 } with
    | ret st1 r => rw [hl] at hst; simp at hst
    | fault => rw [hl] at hst; simp at hst
    | next st1 =>
      rw [hl] at hst
      simp only [Option.some.injEq] at hst
      subst hst
      have hlk : st1.self.d_look_ahead = self.d_look_ahead :=
        work_loop_look_ahead N inp p (0 + 1) _ st1 hl
      obtain ⟨st2, hret⟩ := work_step_early_return N inp (p + 1) st1 hnew (by
        rw [hlk]; push_cast; omega)
      have hsplit : work_loop N inp (p + ((N - p - 1) + 1)) (0 + 1)
          { self := self, out := List.replicate N 0 } =
          PeakStep.ret st2 ((((p + 1 : Nat) : Int) - 1) + 1) := by
        rw [work_loop_add N inp ((N - p - 1) + 1) p (0 + 1) _ st1 hl, work_loop]
        have e : 0 + 1 + p = p + 1 := by omega
        rw [e, hret]
      have eN : p + ((N - p - 1) + 1) = N := by omega
      rw [eN] at hsplit
      refine ⟨{ self := st2.self, out := st2.out,
                produced := (((p + 1 : Nat) : Int) - 1) + 1 }, ?_, ?_, ?_⟩
      · unfold work
        rw [hsplit]
      · show (((p + 1 : Nat) : Int) - 1) + 1 = (p : Int) + 1
        push_cast; omega
      · show (((p + 1 : Nat) : Int) - 1) + 1 < (N : Int)
        push_cast; omega

theorem peak_partial_return_witness :
    ∃ r, work (baz_make_peak_detector 0 1 0 0 1 10) 5 (streamOf [0, 0, 0, 10, 0, 0]) =
        some r ∧ r.produced = ((2 : Nat) : Int) + 1 ∧ r.produced < ((5 : Nat) : Int) :=
  peak_partial_return (baz_make_peak_detector 0 1 0 0 1 10) 5 2
    (streamOf [0, 0, 0, 10, 0, 0])
    (by decide!) (by decide) (by decide)

/-- Claim C7, evaluated on the code.  Fresh detector, `min_diff = 0`, `min_len = 1`,
`drop = 0`, `alpha = 1`, `look_ahead = 4`; the stream is 0 except for a spike 10 at
position 1.  The first call over 3 samples returns early with 2 items and no marker; the
second call continues the stream (history sample: the spike) over 6 more samples and
returns 6 items, all zero.  The rise counter was left at 0 by the early return, so the
run fails the `min_len` test when the look-ahead expires: no marker is produced at all. -/
theorem peak_resume_loses_marker :
    (work (baz_make_peak_detector 0 1 0 0 1 4) 3 (streamOf [0, 0, 10, 0])).map
        (fun r => (r.out, r.produced, r.self.d_rising, r.self.d_rise_count,
          r.self.d_look_ahead_count, r.self.d_peak_idx)) =
      some ([0, 0, 0], 2, true, 0, 4, 1) ∧
    ((work (baz_make_peak_detector 0 1 0 0 1 4) 3 (streamOf [0, 0, 10, 0])).bind
        (fun r => work r.self 6 (streamOf [10, 0, 0, 0, 0, 0, 0]))).map
        (fun r => (r.out, r.produced, r.self.d_rising)) =
      some ([0, 0, 0, 0, 0, 0], 6, false) := by
  decide!

/-- Claim C8, evaluated on the code.  Fresh detector, `min_diff = 0`, `min_len = 1`,
`drop = 0`, `alpha = 1`, `look_ahead = 0`, lockout 0; history sample 0 and the stream
`10, 0, 0`.  One call over the 3 samples marks index 0.  Split after the first sample, the
first call outputs `[0]` and the second call, confirming the peak, writes the marker at the
stale buffer-relative index 0 of its own buffer: the concatenation is `[0, 1, 0]`. -/
theorem peak_split_moves_marker :
    (work (baz_make_peak_detector 0 1 0 0 1 0) 3 (streamOf [0, 10, 0, 0])).map
        (fun r => (r.out, r.produced)) = some ([1, 0, 0], 3) ∧
    ((work (baz_make_peak_detector 0 1 0 0 1 0) 1 (streamOf [0, 10])).bind
        (fun r1 => (work r1.self 2 (streamOf [10, 0, 0])).map
          (fun r2 => (r1.out ++ r2.out, r1.produced, r2.produced)))) =
      some ([0, 1, 0], 1, 2) := by
  decide!

/-! ## Theorems: time keeper -/

theorem drop_length_pred (l : List tag_t) (h : l ≠ []) :
    l.drop (l.length - 1) = [l.getLast h] := by
  have hlen : 0 < l.length := List.length_pos.mpr h
  have hlt : l.length - 1 < l.length := by omega
  rw [List.drop_eq_getElem_cons hlt, List.getLast_eq_getElem]
  have e : l.length - 1 + 1 = l.length := by omega
  rw [e, List.drop_length]

/-- An invocation without tags only advances the sample offset. -/
theorem work_state_untagged (self : baz_time_keeper) (N nread : Nat) :
    self.work_state N nread [] =
      { self with d_time_offset := self.d_time_offset + (N : Int) } := by
  simp [baz_time_keeper.work_state]

/-- An invocation with tags applies the last tag delivered. -/
theorem work_state_tagged (self : baz_time_keeper) (N nread : Nat) (tags : List tag_t)
    (h : tags ≠ []) :
    self.work_state N nread tags =
      { d_item_size := self.d_item_size
        d_sample_rate := self.d_sample_rate
        d_last_time_seconds := (tags.getLast h).seconds
        d_first_time_seconds :=
          if self.d_seen_time = false then (tags.getLast h).seconds
          else self.d_first_time_seconds
        d_last_time_fractional_seconds := (tags.getLast h).fractional_seconds
        d_first_time_fractional_seconds :=
          if self.d_seen_time = false then (tags.getLast h).fractional_seconds
          else self.d_first_time_fractional_seconds
        d_time_offset := 0 + ((N : Int) - (((tags.getLast h).offset : Int) - (nread : Int)))
        d_seen_time := true
        d_update_count :=
          if self.d_ignore_next = false then
            self.d_update_count + ((tags.length : Int) - 1) + 1
          else self.d_update_count
        d_ignore_next := false
        status_port :=
          if self.d_ignore_next = false then self.status_port ++ ["update"]
          else self.status_port } := by
  have hlen : tags.length > 0 := List.length_pos.mpr h
  unfold baz_time_keeper.work_state
  rw [drop_length_pred tags h]
  simp only [hlen, if_true, List.foldl_cons, List.foldl_nil, time_keeper_tag]
  by_cases hig : self.d_ignore_next = false <;> by_cases hs : self.d_seen_time = false <;>
    simp [hig, hs]

theorem work_untagged_eq (calls : List (Nat × Nat)) : ∀ self : baz_time_keeper,
    work_untagged self calls =
      { self with d_time_offset := self.d_time_offset + ((calls.map Prod.fst).sum : Nat) } := by
  induction calls with
  | nil => intro self; simp [work_untagged]
  | cons c t ih =>
    intro self
    have hstep : work_untagged self (c :: t) = work_untagged (self.work c.1 c.2 []).1 t := rfl
    rw [hstep, ih, baz_time_keeper.work, work_state_untagged]
    simp only [List.map_cons, List.sum_cons, Nat.cast_add]
    congr 1
    ring

/-- Claim C9 (first-annotation suppression).  On a freshly constructed time keeper, after
any run of invocations without tags, the first invocation that delivers tags leaves
`update_count()` at 0 and the status port without a message, sets the last and the first
observed time to the value of the last tag of the batch and sets the time-seen flag. -/
theorem time_keeper_first_annotation (item_size : Int) (sample_rate : ℚ)
    (calls : List (Nat × Nat)) (N nread : Nat) (tags : List tag_t) (hne : tags ≠ []) :
    (((work_untagged (baz_make_time_keeper item_size sample_rate) calls).work
        N nread tags).1).update_count = 0 ∧
    (((work_untagged (baz_make_time_keeper item_size sample_rate) calls).work
        N nread tags).1).status_port = [] ∧
    (((work_untagged (baz_make_time_keeper item_size sample_rate) calls).work
        N nread tags).1).d_last_time_seconds = (tags.getLast hne).seconds ∧
    (((work_untagged (baz_make_time_keeper item_size sample_rate) calls).work
        N nread tags).1).d_last_time_fractional_seconds =
      (tags.getLast hne).fractional_seconds ∧
    (((work_untagged (baz_make_time_keeper item_size sample_rate) calls).work
        N nread tags).1).d_first_time_seconds = (tags.getLast hne).seconds ∧
    (((work_untagged (baz_make_time_keeper item_size sample_rate) calls).work
        N nread tags).1).d_first_time_fractional_seconds =
      (tags.getLast hne).fractional_seconds ∧
    (((work_untagged (baz_make_time_keeper item_size sample_rate) calls).work
        N nread tags).1).d_seen_time = true := by
  rw [work_untagged_eq, baz_time_keeper.work, work_state_tagged _ N nread tags hne]
  simp [baz_make_time_keeper, baz_time_keeper.update_count]

theorem time_keeper_first_annotation_witness :
    (((work_untagged (baz_make_time_keeper 4 1000) [(10, 0), (5, 10)]).work 8 15
        [⟨16, 100, 1 / 4⟩, ⟨20, 101, 1 / 2⟩]).1).update_count = 0 ∧
    (((work_untagged (baz_make_time_keeper 4 1000) [(10, 0), (5, 10)]).work 8 15
        [⟨16, 100, 1 / 4⟩, ⟨20, 101, 1 / 2⟩]).1).status_port = [] ∧
    (((work_untagged (baz_make_time_keeper 4 1000) [(10, 0), (5, 10)]).work 8 15
        [⟨16, 100, 1 / 4⟩, ⟨20, 101, 1 / 2⟩]).1).d_last_time_seconds =
      (List.getLast [(⟨16, 100, 1 / 4⟩ : tag_t), ⟨20, 101, 1 / 2⟩]
        (List.cons_ne_nil _ _)).seconds ∧
    (((work_untagged (baz_make_time_keeper 4 1000) [(10, 0), (5, 10)]).work 8 15
        [⟨16, 100, 1 / 4⟩, ⟨20, 101, 1 / 2⟩]).1).d_last_time_fractional_seconds =
      (List.getLast [(⟨16, 100, 1 / 4⟩ : tag_t), ⟨20, 101, 1 / 2⟩]
        (List.cons_ne_nil _ _)).fractional_seconds ∧
    (((work_untagged (baz_make_time_keeper 4 1000) [(10, 0), (5, 10)]).work 8 15
        [⟨16, 100, 1 / 4⟩, ⟨20, 101, 1 / 2⟩]).1).d_first_time_seconds =
      (List.getLast [(⟨16, 100, 1 / 4⟩ : tag_t), ⟨20, 101, 1 / 2⟩]
        (List.cons_ne_nil _ _)).seconds ∧
    (((work_untagged (baz_make_time_keeper 4 1000) [(10, 0), (5, 10)]).work 8 15
        [⟨16, 100, 1 / 4⟩, ⟨20, 101, 1 / 2⟩]).1).d_first_time_fractional_seconds =
      (List.getLast [(⟨16, 100, 1 / 4⟩ : tag_t), ⟨20, 101, 1 / 2⟩]
        (List.cons_ne_nil _ _)).fractional_seconds ∧
    (((work_untagged (baz_make_time_keeper 4 1000) [(10, 0), (5, 10)]).work 8 15
        [⟨16, 100, 1 / 4⟩, ⟨20, 101, 1 / 2⟩]).1).d_seen_time = true :=
  time_keeper_first_annotation 4 1000 [(10, 0), (5, 10)] 8 15
    [⟨16, 100, 1 / 4⟩, ⟨20, 101, 1 / 2⟩] (List.cons_ne_nil _ _)

/-- Claim C10 (monotonic offset), the spec's reading refuted.  A time keeper at 30.72 MHz
whose last tag carries 1 700 000 000 s and that stands one sample past the tag answers
`time(false)` with the `double` 1 700 000 000; after one more sample without a tag the
answer is the same `double`, not a value larger by `1 / 30720000`. -/
theorem time_keeper_monotonic_offset_counterexample :
    (((baz_make_time_keeper 4 30720000).work 8 0
        [⟨7, 1700000000, 0⟩]).1).time_double false = some 1700000000 ∧
    (work_untagged (((baz_make_time_keeper 4 30720000).work 8 0 [⟨7, 1700000000, 0⟩]).1)
        [(1, 8)]).time_double false = some 1700000000 ∧
    (1700000000 : ℚ) ≠
      1700000000 + ((([(1, 8)] : List (Nat × Nat)).map Prod.fst).sum : Nat) / 30720000 := by
  decide!

/-- Claim C10, amended.  For every state with a nonzero sample rate and every run of
invocations without tags, of buffer sizes `n1..nk`: the sample offset grows by exactly
`n1 + ... + nk`; `time(false)` returns the `double` evaluation of
`(last_seconds + last_fractional) + offset / sample_rate` at the new offset; for a positive
sample rate the returned value is not smaller than before the run; the exact value of the
expression grows by `(n1 + ... + nk) / sample_rate`; and `update_count()`, the last and
first observed times and the ignore flag are unchanged. -/
theorem time_keeper_monotonic_offset (self : baz_time_keeper) (calls : List (Nat × Nat))
    (hrate : self.d_sample_rate ≠ 0) :
    (work_untagged self calls).d_time_offset =
      self.d_time_offset + ((calls.map Prod.fst).sum : Nat) ∧
    (work_untagged self calls).time_double false =
      some (fl64 (fl64 (fl64 (self.d_last_time_seconds : ℚ) +
          self.d_last_time_fractional_seconds) +
        fl64 (fl64 ((self.d_time_offset + ((calls.map Prod.fst).sum : Nat) : Int) : ℚ) /
          self.d_sample_rate))) ∧
    (0 < self.d_sample_rate →
      ∃ t t', self.time_double false = some t ∧
        (work_untagged self calls).time_double false = some t' ∧ t ≤ t') ∧
    (work_untagged self calls).time false =
      self.time false + (((calls.map Prod.fst).sum : Nat) : ℚ) / self.d_sample_rate ∧
    (work_untagged self calls).update_count = self.update_count ∧
    (work_untagged self calls).d_last_time_seconds = self.d_last_time_seconds ∧
    (work_untagged self calls).d_last_time_fractional_seconds =
      self.d_last_time_fractional_seconds ∧
    (work_untagged self calls).d_first_time_seconds = self.d_first_time_seconds ∧
    (work_untagged self calls).d_first_time_fractional_seconds =
      self.d_first_time_fractional_seconds ∧
    (work_untagged self calls).d_ignore_next = self.d_ignore_next := by
  rw [work_untagged_eq]
  have hafter : baz_time_keeper.time_double
      { self with d_time_offset := self.d_time_offset + ((calls.map Prod.fst).sum : Nat) }
      false =
      some (fl64 (fl64 (fl64 (self.d_last_time_seconds : ℚ) +
          self.d_last_time_fractional_seconds) +
        fl64 (fl64 ((self.d_time_offset + ((calls.map Prod.fst).sum : Nat) : Int) : ℚ) /
          self.d_sample_rate))) := by
    show (if self.d_sample_rate = 0 then none else _) = _
    rw [if_neg hrate]
    rfl
  have hbefore : self.time_double false =
      some (fl64 (fl64 (fl64 (self.d_last_time_seconds : ℚ) +
          self.d_last_time_fractional_seconds) +
        fl64 (fl64 (self.d_time_offset : ℚ) / self.d_sample_rate))) := by
    show (if self.d_sample_rate = 0 then none else _) = _
    rw [if_neg hrate]
    rfl
  refine ⟨rfl, hafter, ?_, ?_, rfl, rfl, rfl, rfl, rfl, rfl⟩
  · intro hpos
    refine ⟨_, _, hbefore, hafter, ?_⟩
    apply fl64_mono
    apply add_le_add_left
    apply fl64_mono
    apply div_le_div_of_nonneg_right _ (le_of_lt hpos)
    apply fl64_mono
    have h0 : (0 : Int) ≤ ((calls.map Prod.fst).sum : Nat) := Int.natCast_nonneg _
    exact_mod_cast (by omega : self.d_time_offset ≤
      self.d_time_offset + ((calls.map Prod.fst).sum : Nat))
  · simp only [baz_time_keeper.time, Bool.false_eq_true, if_false]
    rw [Int.cast_add, Int.cast_natCast, add_div]
    ring

/-- The amended claim C10 on a fresh time keeper at 1000 samples per second and two
invocations of 10 and 5 samples. -/
theorem time_keeper_monotonic_offset_witness :
    (work_untagged (baz_make_time_keeper 4 1000) [(10, 0), (5, 10)]).d_time_offset =
      (baz_make_time_keeper 4 1000).d_time_offset +
        ((([(10, 0), (5, 10)] : List (Nat × Nat)).map Prod.fst).sum : Nat) ∧
    (work_untagged (baz_make_time_keeper 4 1000) [(10, 0), (5, 10)]).time_double false =
      some (fl64 (fl64 (fl64 ((baz_make_time_keeper 4 1000).d_last_time_seconds : ℚ) +
          (baz_make_time_keeper 4 1000).d_last_time_fractional_seconds) +
        fl64 (fl64 (((baz_make_time_keeper 4 1000).d_time_offset +
            ((([(10, 0), (5, 10)] : List (Nat × Nat)).map Prod.fst).sum : Nat) : Int) : ℚ) /
          (baz_make_time_keeper 4 1000).d_sample_rate))) ∧
    (0 < (baz_make_time_keeper 4 1000).d_sample_rate →
      ∃ t t', (baz_make_time_keeper 4 1000).time_double false = some t ∧
        (work_untagged (baz_make_time_keeper 4 1000) [(10, 0), (5, 10)]).time_double false =
          some t' ∧ t ≤ t') ∧
    (work_untagged (baz_make_time_keeper 4 1000) [(10, 0), (5, 10)]).time false =
      (baz_make_time_keeper 4 1000).time false +
        ((([(10, 0), (5, 10)] : List (Nat × Nat)).map Prod.fst).sum : Nat) /
          (baz_make_time_keeper 4 1000).d_sample_rate ∧
    (work_untagged (baz_make_time_keeper 4 1000) [(10, 0), (5, 10)]).update_count =
      (baz_make_time_keeper 4 1000).update_count ∧
    (work_untagged (baz_make_time_keeper 4 1000) [(10, 0), (5, 10)]).d_last_time_seconds =
      (baz_make_time_keeper 4 1000).d_last_time_seconds ∧
    (work_untagged (baz_make_time_keeper 4 1000)
        [(10, 0), (5, 10)]).d_last_time_fractional_seconds =
      (baz_make_time_keeper 4 1000).d_last_time_fractional_seconds ∧
    (work_untagged (baz_make_time_keeper 4 1000) [(10, 0), (5, 10)]).d_first_time_seconds =
      (baz_make_time_keeper 4 1000).d_first_time_seconds ∧
    (work_untagged (baz_make_time_keeper 4 1000)
        [(10, 0), (5, 10)]).d_first_time_fractional_seconds =
      (baz_make_time_keeper 4 1000).d_first_time_fractional_seconds ∧
    (work_untagged (baz_make_time_keeper 4 1000) [(10, 0), (5, 10)]).d_ignore_next =
      (baz_make_time_keeper 4 1000).d_ignore_next :=
  time_keeper_monotonic_offset (baz_make_time_keeper 4 1000) [(10, 0), (5, 10)]
    (by decide!)

/-- Claim C11 as stated fails on the code: a fresh time keeper with sample rate 1000 that
receives its first tag (100 s + 0.25 s) at position 3 of an 8-sample buffer answers
`time(true)` with the `double` `43980465111 / 2^43` (0.0049999999999954525), the rounded
time of the five samples from the tag to the end of the buffer, not with 0. -/
theorem time_keeper_relative_time_counterexample :
    (((baz_make_time_keeper 4 1000).work 8 0 [⟨3, 100, 1 / 4⟩]).1).time_double true =
      some (43980465111 / 2 ^ 43) ∧
    (((baz_make_time_keeper 4 1000).work 8 0 [⟨3, 100, 1 / 4⟩]).1).time_double true ≠
      some 0 := by
  decide!

/-- Claim C11, amended.  On a freshly constructed time keeper, after any run of
invocations without tags, right after the invocation of `N` samples that delivers the
first tags, the last of them carrying `s`, `f` at position `o` of the buffer: the sample
offset is `N - o`; `time(true)` returns, for a nonzero sample rate, the `double`
evaluation of `((s + f) + (N - o) / sample_rate) - (s + f)`; and the exact value of that
expression is `(N - o) / sample_rate`. -/
theorem time_keeper_relative_time (item_size : Int) (sample_rate : ℚ)
    (calls : List (Nat × Nat)) (N nread o : Nat) (tags : List tag_t) (hne : tags ≠ [])
    (ho : (tags.getLast hne).offset = nread + o) :
    (((work_untagged (baz_make_time_keeper item_size sample_rate) calls).work
        N nread tags).1).d_time_offset = (N : Int) - (o : Int) ∧
    (((work_untagged (baz_make_time_keeper item_size sample_rate) calls).work
        N nread tags).1).time_double true =
      (if sample_rate = 0 then none
       else some (fl64 (fl64 (fl64 (fl64 ((tags.getLast hne).seconds : ℚ) +
            (tags.getLast hne).fractional_seconds) +
          fl64 (fl64 (((N : Int) - (o : Int) : Int) : ℚ) / sample_rate)) -
        fl64 (fl64 ((tags.getLast hne).seconds : ℚ) +
          (tags.getLast hne).fractional_seconds)))) ∧
    (((work_untagged (baz_make_time_keeper item_size sample_rate) calls).work
        N nread tags).1).time true = ((N : ℚ) - (o : ℚ)) / sample_rate := by
  rw [work_untagged_eq, baz_time_keeper.work, work_state_tagged _ N nread tags hne, ho]
  have eo : (0 : Int) + ((N : Int) - (((nread + o : Nat) : Int) - (nread : Int))) =
      (N : Int) - (o : Int) := by
    push_cast; ring
  rw [eo]
  refine ⟨rfl, ?_, ?_⟩
  · simp only [baz_time_keeper.time_double, baz_make_time_keeper, if_true]
  · simp only [baz_time_keeper.time, baz_make_time_keeper, if_true]
    push_cast
    ring

/-- The amended claim C11 on a fresh time keeper at 1000 samples per second: two
invocations without tags, then two tags in one buffer of 8 samples, the last at
position 5. -/
theorem time_keeper_relative_time_witness :
    (((work_untagged (baz_make_time_keeper 4 1000) [(10, 0), (5, 10)]).work 8 15
        [⟨16, 100, 1 / 4⟩, ⟨20, 101, 1 / 2⟩]).1).d_time_offset =
      ((8 : Nat) : Int) - ((5 : Nat) : Int) ∧
    (((work_untagged (baz_make_time_keeper 4 1000) [(10, 0), (5, 10)]).work 8 15
        [⟨16, 100, 1 / 4⟩, ⟨20, 101, 1 / 2⟩]).1).time_double true =
      (if (1000 : ℚ) = 0 then none
       else some (fl64 (fl64 (fl64 (fl64
            (((List.getLast [(⟨16, 100, 1 / 4⟩ : tag_t), ⟨20, 101, 1 / 2⟩]
              (List.cons_ne_nil _ _)).seconds : Nat) : ℚ) +
            (List.getLast [(⟨16, 100, 1 / 4⟩ : tag_t), ⟨20, 101, 1 / 2⟩]
              (List.cons_ne_nil _ _)).fractional_seconds) +
          fl64 (fl64 ((((8 : Nat) : Int) - ((5 : Nat) : Int) : Int) : ℚ) / 1000)) -
        fl64 (fl64 (((List.getLast [(⟨16, 100, 1 / 4⟩ : tag_t), ⟨20, 101, 1 / 2⟩]
              (List.cons_ne_nil _ _)).seconds : Nat) : ℚ) +
          (List.getLast [(⟨16, 100, 1 / 4⟩ : tag_t), ⟨20, 101, 1 / 2⟩]
              (List.cons_ne_nil _ _)).fractional_seconds)))) ∧
    (((work_untagged (baz_make_time_keeper 4 1000) [(10, 0), (5, 10)]).work 8 15
        [⟨16, 100, 1 / 4⟩, ⟨20, 101, 1 / 2⟩]).1).time true =
      (((8 : Nat) : ℚ) - ((5 : Nat) : ℚ)) / 1000 :=
  time_keeper_relative_time 4 1000 [(10, 0), (5, 10)] 8 15 5
    [⟨16, 100, 1 / 4⟩, ⟨20, 101, 1 / 2⟩] (List.cons_ne_nil _ _) (by decide)

/-- The relative time can also be exactly 0: at 30.72 MHz, with the first tag carrying
1 700 000 000 s three samples before the end of the buffer, the offset term is absorbed by
the rounding of the sum and `time(true)` returns 0. -/
theorem time_double_absorbs_offset :
    (((baz_make_time_keeper 4 30720000).work 8 0
        [⟨5, 1700000000, 0⟩]).1).d_time_offset = 3 ∧
    (((baz_make_time_keeper 4 30720000).work 8 0
        [⟨5, 1700000000, 0⟩]).1).time_double true = some 0 := by
  decide!

/-- Claim C13 as stated fails on the code: with the ignore flag cleared, an invocation that
delivers two tags raises `update_count()` by 2 and publishes a single `update` message. -/
theorem time_keeper_notifications_counterexample :
    ((((baz_make_time_keeper 4 1000).ignore_next false).work 8 0
        [⟨3, 100, 1 / 4⟩, ⟨6, 101, 1 / 2⟩]).1).update_count -
      ((baz_make_time_keeper 4 1000).ignore_next false).update_count = 2 ∧
    ((((baz_make_time_keeper 4 1000).ignore_next false).work 8 0
        [⟨3, 100, 1 / 4⟩, ⟨6, 101, 1 / 2⟩]).1).status_port =
      ((baz_make_time_keeper 4 1000).ignore_next false).status_port ++ ["update"] := by
  rw [baz_time_keeper.work, work_state_tagged _ 8 0 _ (List.cons_ne_nil _ _)]
  simp [baz_time_keeper.update_count, baz_time_keeper.ignore_next, baz_make_time_keeper]

/-- Claim C13, amended.  For every state and every invocation delivering `n` tags: when
`n ≥ 1` and the ignore flag is clear on entry, exactly one `update` message is appended to
the status port and `update_count()` grows by `n`; otherwise no message is published and
the counter is unchanged.  Hence the number of messages published equals the growth of the
counter whenever the invocation delivers at most one tag. -/
theorem time_keeper_notifications (self : baz_time_keeper) (N nread : Nat)
    (tags : List tag_t) :
    ((self.work N nread tags).1).status_port =
      self.status_port ++
        (if tags ≠ [] ∧ self.d_ignore_next = false then ["update"] else []) ∧
    ((self.work N nread tags).1).update_count - self.update_count =
      (if tags ≠ [] ∧ self.d_ignore_next = false then (tags.length : Int) else 0) ∧
    (tags.length ≤ 1 →
      ((((self.work N nread tags).1).status_port.length : Int) -
          (self.status_port.length : Int) =
        ((self.work N nread tags).1).update_count - self.update_count)) := by
  by_cases hne : tags = []
  · subst hne
    rw [baz_time_keeper.work, work_state_untagged]
    simp [baz_time_keeper.update_count]
  · rw [baz_time_keeper.work, work_state_tagged _ N nread tags hne]
    by_cases hig : self.d_ignore_next = false
    · simp only [baz_time_keeper.update_count, hig, hne, if_true, ne_eq, not_false_eq_true,
        and_self, List.length_append, List.length_singleton]
      refine ⟨trivial, by ring, ?_⟩
      intro h1
      have hpos : 0 < tags.length := List.length_pos.mpr hne
      have h1' : (tags.length : Int) = 1 := by omega
      rw [h1']
      push_cast
      ring
    · simp [baz_time_keeper.update_count, hig]

/-- Claim C14 (update counting).  For every state and every invocation that delivers
`n ≥ 1` tags, `update_count()` grows by exactly `n` when the ignore flag is false on entry
and by 0 when it is true, and the flag is false afterwards; an invocation without tags
leaves the counter and the flag unchanged. -/
theorem time_keeper_update_counting (self : baz_time_keeper) (N nread : Nat)
    (tags : List tag_t) (hne : tags ≠ []) :
    (self.d_ignore_next = false →
      ((self.work N nread tags).1).update_count = self.update_count + (tags.length : Int)) ∧
    (self.d_ignore_next = true →
      ((self.work N nread tags).1).update_count = self.update_count) ∧
    ((self.work N nread tags).1).d_ignore_next = false ∧
    ((self.work N nread []).1).update_count = self.update_count ∧
    ((self.work N nread []).1).d_ignore_next = self.d_ignore_next := by
  refine ⟨?_, ?_, ?_, ?_, ?_⟩
  · intro hig
    rw [baz_time_keeper.work, work_state_tagged _ N nread tags hne]
    simp only [baz_time_keeper.update_count, hig, if_true]
    ring
  · intro hig
    rw [baz_time_keeper.work, work_state_tagged _ N nread tags hne]
    simp [baz_time_keeper.update_count, hig]
  · rw [baz_time_keeper.work, work_state_tagged _ N nread tags hne]
  · rw [baz_time_keeper.work, work_state_untagged]
    rfl
  · rw [baz_time_keeper.work, work_state_untagged]

theorem time_keeper_update_counting_witness :
    ((((baz_make_time_keeper 4 1000).ignore_next false).work 8 0
        [⟨3, 100, 1 / 4⟩, ⟨6, 101, 1 / 2⟩]).1).update_count =
      ((baz_make_time_keeper 4 1000).ignore_next false).update_count +
        (([⟨3, 100, 1 / 4⟩, ⟨6, 101, 1 / 2⟩] : List tag_t).length : Int) :=
  (time_keeper_update_counting ((baz_make_time_keeper 4 1000).ignore_next false) 8 0
    [⟨3, 100, 1 / 4⟩, ⟨6, 101, 1 / 2⟩] (List.cons_ne_nil _ _)).1 rfl

/-! ## Theorems: depuncturer, configuration and cursor -/

/-- Claim C15 (empty-pattern no-op).  `set_matrix` with an empty pattern returns the block
unchanged: the stored pattern, its length, the replay cursor and the published relative
rate all keep their values. -/
theorem depuncture_empty_pattern (self : baz_depuncture_ff) :
    set_matrix self [] = self ∧
    (set_matrix self []).m_pMatrix = self.m_pMatrix ∧
    (set_matrix self []).m_iLength = self.m_iLength ∧
    (set_matrix self []).m_iIndex = self.m_iIndex ∧
    (set_matrix self []).relative_rate = self.relative_rate :=
  ⟨rfl, rfl, rfl, rfl, rfl⟩

theorem cursorInv_make (matrix : List Int) (hne : matrix ≠ []) :
    cursorInv (baz_make_depuncture_ff matrix) := by
  unfold baz_make_depuncture_ff
  rw [set_matrix_of_ne_nil _ matrix hne]
  exact ⟨List.length_pos.mpr hne, List.length_pos.mpr hne, _, rfl, List.length_map _ _⟩

theorem cursorInv_set_matrix (s : baz_depuncture_ff) (matrix : List Int)
    (h : cursorInv s) : cursorInv (set_matrix s matrix) := by
  by_cases hne : matrix = []
  · subst hne; exact h
  · rw [set_matrix_of_ne_nil _ matrix hne]
    exact ⟨List.length_pos.mpr hne, List.length_pos.mpr hne, _, rfl, List.length_map _ _⟩

/-- Under the cursor invariant an iteration of `general_work` can fail only by reading past
the supplied input; otherwise it keeps the invariant, appends one output and advances the
input cursor by at most one. -/
theorem general_work_step_cursorInv {α : Type} [Zero α] (inp : List α)
    (st : DepunctureLoop α) (h : cursorInv st.self) :
    (general_work_step inp st = none ∧ inp.length ≤ st.iIn) ∨
    ∃ st', general_work_step inp st = some st' ∧ cursorInv st'.self ∧
      st'.iIn ≤ st.iIn + 1 := by
  obtain ⟨hlen, hidx, m, hm, hml⟩ := h
  have hidx' : st.self.m_iIndex < m.length := by omega
  have hget : m[st.self.m_iIndex]? = some m[st.self.m_iIndex] :=
    List.getElem?_eq_getElem hidx'
  have hl0 : st.self.m_iLength ≠ 0 := by omega
  have hmod : (st.self.m_iIndex + 1) % st.self.m_iLength < st.self.m_iLength :=
    Nat.mod_lt _ hlen
  simp only [general_work_step, hm, hget, hl0, if_false]
  by_cases hb : m[st.self.m_iIndex] = 0
  · right
    simp only [hb, ne_eq, not_true_eq_false, if_false]
    exact ⟨_, rfl, ⟨hlen, hmod, m, rfl, hml⟩, by simp⟩
  · simp only [hb, ne_eq, not_false_eq_true, if_true]
    cases hin : inp[st.iIn]? with
    | none =>
      left
      exact ⟨rfl, by simpa using hin⟩
    | some v =>
      right
      exact ⟨_, rfl, ⟨hlen, hmod, m, rfl, hml⟩, le_refl _⟩

theorem general_work_loop_cursorInv {α : Type} [Zero α] (inp : List α) :
    ∀ (n : Nat) (st : DepunctureLoop α), cursorInv st.self → st.iIn + n ≤ inp.length →
      ∃ st', general_work_loop inp n st = some st' ∧ cursorInv st'.self := by
  intro n
  induction n with
  | zero => intro st h _; exact ⟨st, rfl, h⟩
  | succ n ih =>
    intro st h hin
    rcases general_work_step_cursorInv inp st h with ⟨_, hbad⟩ | ⟨st1, h1, hI1, hle⟩
    · omega
    · obtain ⟨st2, h2, hI2⟩ := ih st1 hI1 (by omega)
      exact ⟨st2, by rw [general_work_loop, h1]; exact h2, hI2⟩

theorem general_work_cursorInv {α : Type} [Zero α] (s : baz_depuncture_ff) (N : Nat)
    (inp : List α) (h : cursorInv s) (hin : N ≤ inp.length) :
    ∃ r, general_work s N inp = some r ∧ cursorInv r.self := by
  obtain ⟨st', h1, hI⟩ :=
    general_work_loop_cursorInv inp N { self := s, iIn := 0, out := [] } h (by
      show 0 + N ≤ inp.length
      omega)
  exact ⟨_, by unfold general_work; rw [h1], hI⟩

theorem run_ops_cursorInv {α : Type} [Zero α] :
    ∀ (ops : List (DepunctureOp α)) (s : baz_depuncture_ff), cursorInv s →
      (∀ op ∈ ops, op.enough_input) →
      ∃ s', run_ops s ops = some s' ∧ cursorInv s' := by
  intro ops
  induction ops with
  | nil => intro s h _; exact ⟨s, rfl, h⟩
  | cons op ops ih =>
    intro s h hin
    have hrest : ∀ o ∈ ops, o.enough_input := fun o ho => hin o (List.mem_cons_of_mem _ ho)
    cases op with
    | set_pattern matrix =>
      exact ih (set_matrix s matrix) (cursorInv_set_matrix s matrix h) hrest
    | process N inp =>
      have hN : N ≤ inp.length := hin _ (List.mem_cons_self _ _)
      obtain ⟨r, hr, hI⟩ := general_work_cursorInv s N inp h hN
      obtain ⟨s', hs', hI'⟩ := ih r.self hI hrest
      exact ⟨s', by rw [run_ops, hr]; exact hs', hI'⟩

/-- Claim C16 (cursor invariant).  A depuncturer constructed with a non-empty pattern and
driven through any finite sequence of `set_matrix` calls (empty or not) and `general_work`
calls (any output counts, input supplied for them) ends in a state with a pattern of
positive length and `cursor < length`; from that state an iteration of `general_work`
neither divides by zero nor reads the pattern out of bounds (it can fail only by running
out of input); and `set_matrix` with a non-empty pattern leaves the cursor at 0. -/
theorem depuncture_cursor_invariant {α : Type} [Zero α] (matrix : List Int)
    (ops : List (DepunctureOp α)) (hne : matrix ≠ [])
    (hin : ∀ op ∈ ops, op.enough_input) :
    (∃ s, run_ops (baz_make_depuncture_ff matrix) ops = some s ∧
      0 < s.m_iLength ∧ s.m_iIndex < s.m_iLength ∧
      (∃ m : List Int, s.m_pMatrix = some m ∧ m.length = s.m_iLength) ∧
      ∀ (inp : List α) (iIn : Nat) (out : List α),
        general_work_step inp { self := s, iIn := iIn, out := out } = none →
          inp.length ≤ iIn) ∧
    (∀ (s : baz_depuncture_ff) (p : List Int), p ≠ [] → (set_matrix s p).m_iIndex = 0) := by
  constructor
  · obtain ⟨s, hs, hI⟩ := run_ops_cursorInv ops _ (cursorInv_make matrix hne) hin
    refine ⟨s, hs, hI.1, hI.2.1, hI.2.2, ?_⟩
    intro inp iIn out hnone
    rcases general_work_step_cursorInv inp { self := s, iIn := iIn, out := out } hI with
      ⟨_, hbad⟩ | ⟨st', h1, _, _⟩
    · exact hbad
    · rw [h1] at hnone; exact absurd hnone (by simp)
  · intro s p hp
    rw [set_matrix_of_ne_nil s p hp]

theorem depuncture_cursor_invariant_witness :
    ∃ s, run_ops (baz_make_depuncture_ff [1, 0, 1])
        [DepunctureOp.process 4 [(1 : Int), 2, 3, 4], DepunctureOp.set_pattern [],
          DepunctureOp.set_pattern [1, 1, 0], DepunctureOp.process 2 [5, 6]] = some s ∧
      0 < s.m_iLength ∧ s.m_iIndex < s.m_iLength := by
  obtain ⟨⟨s, hs, h1, h2, _⟩, _⟩ := depuncture_cursor_invariant [1, 0, 1]
    [DepunctureOp.process 4 [(1 : Int), 2, 3, 4], DepunctureOp.set_pattern [],
      DepunctureOp.set_pattern [1, 1, 0], DepunctureOp.process 2 [5, 6]] (by decide) (by
      intro op hop
      simp only [List.mem_cons, List.mem_singleton, List.not_mem_nil, or_false] at hop
      rcases hop with h | h | h | h <;> subst h <;> simp [DepunctureOp.enough_input])
  exact ⟨s, hs, h1, h2⟩

/-! ## Theorems: peak detector, countdowns and single steps -/

theorem work_confirm_countdownInv (K LA : Int) (inp : Nat → ℚ) (i : Nat)
    (s : baz_peak_detector) (out : List ℚ) (st' : PeakLoop)
    (h : (work_confirm inp i s out).loop_state = some st') (hK : 0 ≤ K)
    (h1 : s.d_lockout = K) (h2 : s.d_look_ahead = LA) (h3 : 0 ≤ s.d_lockout_count)
    (h4 : s.d_look_ahead_count = 0) : countdownInv K LA st'.self := by
  simp only [work_confirm] at h
  split_ifs at h <;> simp only [PeakStep.loop_state, Option.some.injEq, reduceCtorEq] at h <;>
    subst h <;> refine ⟨h1, h2, ?_, le_of_eq h4.symm, ?_⟩ <;>
    first
      | exact h3
      | (show 0 ≤ s.d_lockout; omega)
      | (intro hc; exfalso; revert hc; show ¬ 0 < s.d_look_ahead_count; omega)

theorem work_rising_countdownInv (K LA : Int) (N : Nat) (inp : Nat → ℚ) (i : Nat)
    (s : baz_peak_detector) (out : List ℚ) (st' : PeakLoop)
    (h : (work_rising N inp i s out).loop_state = some st') (hLA : 0 ≤ LA)
    (h1 : s.d_lockout = K) (h2 : s.d_look_ahead = LA) (h3 : s.d_lockout_count = 0)
    (h4 : 0 ≤ s.d_look_ahead_count) : countdownInv K LA st'.self := by
  simp only [work_rising] at h
  split_ifs at h <;> simp only [PeakStep.loop_state, Option.some.injEq, reduceCtorEq] at h <;>
    subst h <;> refine ⟨h1, h2, le_of_eq h3.symm, ?_, fun _ => h3⟩ <;>
    first
      | exact h4
      | (show 0 ≤ s.d_look_ahead; omega)

theorem work_detect_countdownInv (K LA : Int) (N : Nat) (inp : Nat → ℚ) (i : Nat)
    (s : baz_peak_detector) (out : List ℚ) (st' : PeakLoop)
    (h : (work_detect N inp i s out).loop_state = some st') (hK : 0 ≤ K) (hLA : 0 ≤ LA)
    (h1 : s.d_lockout = K) (h2 : s.d_look_ahead = LA) (h3 : s.d_lockout_count = 0)
    (h4 : 0 ≤ s.d_look_ahead_count) : countdownInv K LA st'.self := by
  simp only [work_detect] at h
  split_ifs at h with ha hb hc
  · exact work_rising_countdownInv K LA N inp i s out st' h hLA h1 h2 h3 h4
  · simp only [PeakStep.loop_state, Option.some.injEq] at h
    subst h
    exact ⟨h1, h2, le_of_eq h3.symm, by show 0 ≤ s.d_look_ahead_count - 1; omega,
      fun _ => h3⟩
  · have hz : s.d_look_ahead_count - 1 = 0 := by simpa using hc
    exact work_confirm_countdownInv K LA inp i _ out st' h hK h1 h2 (le_of_eq h3.symm) hz
  · exact work_confirm_countdownInv K LA inp i s out st' h hK h1 h2 (le_of_eq h3.symm)
      (by omega)

/-- Every sample step keeps the countdown invariant, also when it ends in an early
return. -/
theorem work_step_countdownInv (K LA : Int) (N : Nat) (inp : Nat → ℚ) (i : Nat)
    (st st' : PeakLoop) (hK : 0 ≤ K) (hLA : 0 ≤ LA) (hI : countdownInv K LA st.self)
    (h : (work_step N inp i st).loop_state = some st') : countdownInv K LA st'.self := by
  obtain ⟨h1, h2, h3, h4, h5⟩ := hI
  simp only [work_step] at h
  split_ifs at h with ha hb
  · simp only [PeakStep.loop_state, Option.some.injEq] at h
    subst h
    exact ⟨h1, h2, by show 0 ≤ st.self.d_lockout_count - 1; omega, h4, fun hc => by
      have := h5 hc
      omega⟩
  · exact work_detect_countdownInv K LA N inp i _ st.out st' h hK hLA h1 h2
      (by show st.self.d_lockout_count - 1 = 0; omega) h4
  · exact work_detect_countdownInv K LA N inp i _ st.out st' h hK hLA h1 h2
      (by show st.self.d_lockout_count = 0; omega) h4

theorem run_steps_countdownInv (K LA : Int) (hK : 0 ≤ K) (hLA : 0 ≤ LA) :
    ∀ (steps : List SampleStep) (s s' : baz_peak_detector), countdownInv K LA s →
      run_steps s steps = some s' → countdownInv K LA s' := by
  intro steps
  induction steps with
  | nil =>
    intro s s' hI h
    simp only [run_steps, Option.some.injEq] at h
    subst h; exact hI
  | cons c cs ih =>
    intro s s' hI h
    rw [run_steps] at h
    cases hs : step_state s c with
    | none => rw [hs] at h; simp at h
    | some s1 =>
      rw [hs] at h
      simp only at h
      refine ih s1 s' ?_ h
      unfold step_state at hs
      cases hl : (work_step c.noutput_items c.inp c.i { self := s, out := c.out }).loop_state with
      | none => rw [hl] at hs; simp at hs
      | some st1 =>
        rw [hl] at hs
        simp only [Option.map_some', Option.some.injEq] at hs
        subst hs
        exact work_step_countdownInv K LA c.noutput_items c.inp c.i _ st1 hK hLA hI hl

/-- Claim C17 (countdown exclusivity).  For every configuration with lockout `K ≥ 0` and
look-ahead `LA ≥ 0`, in every state reached from the constructed state by any sequence of
sample steps over any inputs (steps ending in an early return included), the lockout
countdown and the look-ahead countdown are not both positive: while one is positive the
other is 0, so no sample step is suppressed by both. -/
theorem peak_countdown_exclusive (min_diff : ℚ) (min_len K : Int) (drop alpha : ℚ)
    (LA : Int) (steps : List SampleStep) (s' : baz_peak_detector) (hK : 0 ≤ K)
    (hLA : 0 ≤ LA)
    (hrun : run_steps (baz_make_peak_detector min_diff min_len K drop alpha LA) steps =
      some s') :
    ¬ (0 < s'.d_lockout_count ∧ 0 < s'.d_look_ahead_count) ∧
    (0 < s'.d_lockout_count → s'.d_look_ahead_count = 0) ∧
    (0 < s'.d_look_ahead_count → s'.d_lockout_count = 0) := by
  have h0 : countdownInv K LA (baz_make_peak_detector min_diff min_len K drop alpha LA) :=
    ⟨rfl, rfl, by show (0 : Int) ≤ 1; omega, le_refl _, fun h => absurd h (lt_irrefl _)⟩
  obtain ⟨_, _, h3, h4, h5⟩ := run_steps_countdownInv K LA hK hLA steps _ s' h0 hrun
  refine ⟨?_, ?_, h5⟩
  · rintro ⟨ha, hb⟩
    have := h5 hb
    omega
  · intro ha
    by_contra hne
    have hb : 0 < s'.d_look_ahead_count := by omega
    have := h5 hb
    omega

theorem peak_countdown_exclusive_witness :
    ¬ (0 < (baz_peak_detector.mk 0 1 3 0 1 2 true 1 0 10 0 10 2 0).d_lockout_count ∧
        0 < (baz_peak_detector.mk 0 1 3 0 1 2 true 1 0 10 0 10 2 0).d_look_ahead_count) ∧
    (0 < (baz_peak_detector.mk 0 1 3 0 1 2 true 1 0 10 0 10 2 0).d_lockout_count →
      (baz_peak_detector.mk 0 1 3 0 1 2 true 1 0 10 0 10 2 0).d_look_ahead_count = 0) ∧
    (0 < (baz_peak_detector.mk 0 1 3 0 1 2 true 1 0 10 0 10 2 0).d_look_ahead_count →
      (baz_peak_detector.mk 0 1 3 0 1 2 true 1 0 10 0 10 2 0).d_lockout_count = 0) :=
  peak_countdown_exclusive 0 1 3 0 1 2
    [⟨3, streamOf [0, 10, 0, 0], 1, [0, 0, 0]⟩]
    (baz_peak_detector.mk 0 1 3 0 1 2 true 1 0 10 0 10 2 0) (by decide) (by decide)
    (by decide!)

/-- Claim C18 as stated fails on the code: the constructed detector starts with the
lockout counter at 1, which is positive, yet its first sample step decrements the counter
to 0 and runs the detection: the sample 10 above the threshold 0 starts a rising run and
records a tentative peak. -/
theorem peak_lockout_step_counterexample :
    0 < (baz_make_peak_detector 0 1 0 0 1 0).d_lockout_count ∧
    (baz_make_peak_detector 0 1 0 0 1 0).d_rising = false ∧
    ((work_step 1 (streamOf [0, 10]) 1
        { self := baz_make_peak_detector 0 1 0 0 1 0, out := [0] }).loop_state).map
        (fun st => (st.self.d_rising, st.self.d_rise_count, st.self.d_first,
          st.self.d_peak, st.self.d_peak_idx, st.self.d_lockout_count)) =
      some (true, 1, 10, 10, 0, 0) := by
  refine ⟨by decide, rfl, ?_⟩
  decide!

/-- Claim C18, amended.  For every detector state whose lockout counter is at least 2 at
the start of a sample step, so that it is still positive after the decrement, and every
sample, the step advances the moving average, decrements the lockout counter by one and
skips the detection: the rising flag, rise count, run-start value, tentative peak value
and index and the look-ahead countdown are unchanged and the output buffer is untouched. -/
theorem peak_lockout_step (N : Nat) (inp : Nat → ℚ) (i : Nat) (s : baz_peak_detector)
    (out : List ℚ) (h : 2 ≤ s.d_lockout_count) :
    ∃ st', work_step N inp i { self := s, out := out } = PeakStep.next st' ∧
      st'.self.d_ave = ave_step s.d_alpha s.d_ave (inp (i - 1)) ∧
      st'.self.d_lockout_count = s.d_lockout_count - 1 ∧
      st'.self.d_rising = s.d_rising ∧ st'.self.d_rise_count = s.d_rise_count ∧
      st'.self.d_first = s.d_first ∧ st'.self.d_peak = s.d_peak ∧
      st'.self.d_peak_idx = s.d_peak_idx ∧
      st'.self.d_look_ahead_count = s.d_look_ahead_count ∧ st'.out = out :=
  ⟨_, work_step_locked N inp i s out h, rfl, rfl, rfl, rfl, rfl, rfl, rfl, rfl, rfl⟩

theorem peak_lockout_step_witness :
    ∃ st', work_step 3 (streamOf [0, 0, 10, 0]) 2
        { self := baz_peak_detector.mk 0 1 3 0 1 0 false 1 3 10 0 10 0 0,
          out := [1, 0, 0] } = PeakStep.next st' ∧
      st'.self.d_ave =
        ave_step (baz_peak_detector.mk 0 1 3 0 1 0 false 1 3 10 0 10 0 0).d_alpha
          (baz_peak_detector.mk 0 1 3 0 1 0 false 1 3 10 0 10 0 0).d_ave
          (streamOf [0, 0, 10, 0] (2 - 1)) ∧
      st'.self.d_lockout_count =
        (baz_peak_detector.mk 0 1 3 0 1 0 false 1 3 10 0 10 0 0).d_lockout_count - 1 ∧
      st'.self.d_rising = (baz_peak_detector.mk 0 1 3 0 1 0 false 1 3 10 0 10 0 0).d_rising ∧
      st'.self.d_rise_count =
        (baz_peak_detector.mk 0 1 3 0 1 0 false 1 3 10 0 10 0 0).d_rise_count ∧
      st'.self.d_first = (baz_peak_detector.mk 0 1 3 0 1 0 false 1 3 10 0 10 0 0).d_first ∧
      st'.self.d_peak = (baz_peak_detector.mk 0 1 3 0 1 0 false 1 3 10 0 10 0 0).d_peak ∧
      st'.self.d_peak_idx =
        (baz_peak_detector.mk 0 1 3 0 1 0 false 1 3 10 0 10 0 0).d_peak_idx ∧
      st'.self.d_look_ahead_count =
        (baz_peak_detector.mk 0 1 3 0 1 0 false 1 3 10 0 10 0 0).d_look_ahead_count ∧
      st'.out = [1, 0, 0] :=
  peak_lockout_step 3 (streamOf [0, 0, 10, 0]) 2
    (baz_peak_detector.mk 0 1 3 0 1 0 false 1 3 10 0 10 0 0) [1, 0, 0] (by decide)

/-- A sample at or below the threshold that is not skipped by the lockout and meets no
look-ahead countdown above 1 goes to the confirmation code, with the average advanced and
the two countdowns decremented where positive. -/
theorem work_step_below (N : Nat) (inp : Nat → ℚ) (i : Nat) (s : baz_peak_detector)
    (out : List ℚ) (hlc : s.d_lockout_count ≤ 1)
    (hthr : ¬ inp i > threshold (ave_step s.d_alpha s.d_ave (inp (i - 1))) s.d_drop)
    (hla : s.d_look_ahead_count ≤ 1) :
    work_step N inp i { self := s, out := out } =
      work_confirm inp i
        { s with d_ave := ave_step s.d_alpha s.d_ave (inp (i - 1)),
                 d_lockout_count :=
                   if 0 < s.d_lockout_count then s.d_lockout_count - 1
                   else s.d_lockout_count,
                 d_look_ahead_count :=
                   if 0 < s.d_look_ahead_count then s.d_look_ahead_count - 1
                   else s.d_look_ahead_count } out := by
  by_cases h1 : 0 < s.d_lockout_count
  · have h2 : ¬ 0 < s.d_lockout_count - 1 := by omega
    by_cases h3 : 0 < s.d_look_ahead_count
    · have h4 : s.d_look_ahead_count - 1 = 0 := by omega
      simp [work_step, work_detect, h1, h2, h3, h4, hthr]
    · simp [work_step, work_detect, h1, h2, h3, hthr]
  · by_cases h3 : 0 < s.d_look_ahead_count
    · have h4 : s.d_look_ahead_count - 1 = 0 := by omega
      simp [work_step, work_detect, h1, h3, h4, hthr]
    · simp [work_step, work_detect, h1, h3, hthr]

/-- The confirmation code on a rising run whose recorded index lies inside the buffer. -/
theorem work_confirm_rising (inp : Nat → ℚ) (i : Nat) (s : baz_peak_detector)
    (out : List ℚ) (hr : s.d_rising = true)
    (hidx : 0 ≤ s.d_peak_idx ∧ s.d_peak_idx < out.length) :
    work_confirm inp i s out =
      if s.d_rise_count ≥ s.d_min_len ∧
          (s.d_min_diff = 0 ∨
            (if s.d_first > 0 then fl32 (inp i / s.d_first) else 0) ≥ s.d_min_diff) then
        PeakStep.next
          { self := { s with d_lockout_count := s.d_lockout, d_rising := false },
            out := out.set s.d_peak_idx.toNat 1 }
      else PeakStep.next { self := { s with d_rising := false }, out := out } := by
  by_cases hlen : s.d_rise_count ≥ s.d_min_len
  · by_cases hd : s.d_min_diff = 0 ∨
        (if s.d_first > 0 then fl32 (inp i / s.d_first) else 0) ≥ s.d_min_diff
    · simp only [work_confirm, hr, hlen, hd, hidx, if_true, and_self]
    · simp only [work_confirm, hr, hlen, hd, if_true, if_false, and_false, true_and]
  · simp only [work_confirm, hr, hlen, if_true, if_false, false_and]

/-- The confirmation code always leaves the rising flag cleared. -/
theorem work_confirm_not_rising (inp : Nat → ℚ) (i : Nat) (s : baz_peak_detector)
    (out : List ℚ) (st' : PeakLoop)
    (h : (work_confirm inp i s out).loop_state = some st') : st'.self.d_rising = false := by
  simp only [work_confirm] at h
  split_ifs at h with hr <;>
    simp only [PeakStep.loop_state, Option.some.injEq, reduceCtorEq] at h <;> subst h <;>
    first
      | rfl
      | (simpa using hr)

theorem work_rising_risingInv (N : Nat) (inp : Nat → ℚ) (i : Nat) (s : baz_peak_detector)
    (out : List ℚ) (st' : PeakLoop)
    (h : (work_rising N inp i s out).loop_state = some st') (h3 : s.d_lockout_count ≤ 0) :
    risingInv st'.self := by
  simp only [work_rising] at h
  split_ifs at h <;> simp only [PeakStep.loop_state, Option.some.injEq, reduceCtorEq] at h <;>
    subst h <;> exact fun _ => h3

theorem work_detect_risingInv (N : Nat) (inp : Nat → ℚ) (i : Nat) (s : baz_peak_detector)
    (out : List ℚ) (st' : PeakLoop)
    (h : (work_detect N inp i s out).loop_state = some st') (h3 : s.d_lockout_count ≤ 0) :
    risingInv st'.self := by
  simp only [work_detect] at h
  split_ifs at h with ha hb hc
  · exact work_rising_risingInv N inp i s out st' h h3
  · simp only [PeakStep.loop_state, Option.some.injEq] at h
    subst h
    exact fun _ => h3
  · intro hr
    rw [work_confirm_not_rising inp i _ out st' h] at hr
    exact absurd hr (by decide)
  · intro hr
    rw [work_confirm_not_rising inp i _ out st' h] at hr
    exact absurd hr (by decide)

/-- Every sample step keeps the lockout countdown off during a rising run, also when it
ends in an early return. -/
theorem work_step_risingInv (N : Nat) (inp : Nat → ℚ) (i : Nat) (st st' : PeakLoop)
    (hI : risingInv st.self) (h : (work_step N inp i st).loop_state = some st') :
    risingInv st'.self := by
  simp only [work_step] at h
  split_ifs at h with ha hb
  · simp only [PeakStep.loop_state, Option.some.injEq] at h
    subst h
    intro hr
    have h1 : st.self.d_lockout_count ≤ 0 := hI hr
    have h2 : 0 < st.self.d_lockout_count := ha
    omega
  · exact work_detect_risingInv N inp i _ st.out st' h
      (by show st.self.d_lockout_count - 1 ≤ 0; omega)
  · exact work_detect_risingInv N inp i _ st.out st' h
      (by show st.self.d_lockout_count ≤ 0; omega)

theorem run_steps_risingInv :
    ∀ (steps : List SampleStep) (s s' : baz_peak_detector), risingInv s →
      run_steps s steps = some s' → risingInv s' := by
  intro steps
  induction steps with
  | nil =>
    intro s s' hI h
    simp only [run_steps, Option.some.injEq] at h
    subst h; exact hI
  | cons c cs ih =>
    intro s s' hI h
    rw [run_steps] at h
    cases hs : step_state s c with
    | none => rw [hs] at h; simp at h
    | some s1 =>
      rw [hs] at h
      simp only at h
      refine ih s1 s' ?_ h
      unfold step_state at hs
      cases hl : (work_step c.noutput_items c.inp c.i { self := s, out := c.out }).loop_state with
      | none => rw [hl] at hs; simp at hs
      | some st1 =>
        rw [hl] at hs
        simp only [Option.map_some', Option.some.injEq] at hs
        subst hs
        exact work_step_risingInv c.noutput_items c.inp c.i _ st1 hI hl

/-- Claim C19 as stated fails on the code, in three ways.
(a) Fresh detector, `min_diff = 1`, `min_len = 1`, `alpha = 1`, `drop = 0`,
`look_ahead = 0`, history sample -5 and samples -1, -2: the run starts at the value -1,
and at the sample -2 the run length is 1 and the ratio `(-2) / (-1) = 2` reaches
`min_diff`, yet no marker is written and the lockout is not armed, because the code takes
the ratio as 0 when the run-start value is not positive.
(b) Fresh detector with `min_diff` the `float` nearest to 1/3 (`11184811 / 2^25`), history
sample 0 and samples 3, 1: at the sample 1 the run length is 1 and the ratio `1 / 3` is
below `min_diff`, yet the marker is written, because the code compares the `float`
quotient, which rounds up to `min_diff`.
(c) A run whose tentative peak was recorded at index 1 of the previous buffer and that is
confirmed in a buffer of one sample has its marker index outside the buffer. -/
theorem peak_confirmation_counterexample :
    (work_state_at (baz_make_peak_detector 1 1 0 0 1 0) 2 (streamOf [-5, -1, -2]) 1 =
        some { self := baz_peak_detector.mk 1 1 0 0 1 0 true 1 0 (-1) (-5) (-1) 0 0,
               out := [0, 0] } ∧
      ¬ streamOf [-5, -1, -2] 2 >
          threshold (ave_step 1 (-5) (streamOf [-5, -1, -2] (2 - 1))) 0 ∧
      (1 : Int) ≥ 1 ∧ streamOf [-5, -1, -2] 2 / (-1) ≥ (1 : ℚ) ∧
      fl32 (streamOf [-5, -1, -2] 2 / (-1)) ≥ (1 : ℚ) ∧
      ((work_step 2 (streamOf [-5, -1, -2]) 2
          { self := baz_peak_detector.mk 1 1 0 0 1 0 true 1 0 (-1) (-5) (-1) 0 0,
            out := [0, 0] }).loop_state).map
          (fun st => (st.out, st.self.d_lockout_count, st.self.d_rising)) =
        some ([0, 0], 0, false)) ∧
    (work_state_at (baz_make_peak_detector (11184811 / 2 ^ 25) 1 0 0 1 0) 2
          (streamOf [0, 3, 1]) 1 =
        some { self := baz_peak_detector.mk (11184811 / 2 ^ 25) 1 0 0 1 0 true 1 0 3 0 3 0 0,
               out := [0, 0] } ∧
      ¬ streamOf [0, 3, 1] 2 > threshold (ave_step 1 0 (streamOf [0, 3, 1] (2 - 1))) 0 ∧
      (1 : Int) ≥ 1 ∧ (11184811 / 2 ^ 25 : ℚ) ≠ 0 ∧
      ¬ streamOf [0, 3, 1] 2 / 3 ≥ (11184811 / 2 ^ 25 : ℚ) ∧
      ((work_step 2 (streamOf [0, 3, 1]) 2
          { self := baz_peak_detector.mk (11184811 / 2 ^ 25) 1 0 0 1 0 true 1 0 3 0 3 0 0,
            out := [0, 0] }).loop_state).map
          (fun st => (st.out, st.self.d_lockout_count, st.self.d_rising)) =
        some ([1, 0], 0, false)) ∧
    ((work (baz_make_peak_detector 0 1 0 0 1 0) 2 (streamOf [0, 0, 10])).map
        (fun r => r.self) =
        some (baz_peak_detector.mk 0 1 0 0 1 0 true 1 0 10 0 10 0 1) ∧
      work_step 1 (streamOf [10, 0]) 1
          { self := baz_peak_detector.mk 0 1 0 0 1 0 true 1 0 10 0 10 0 1, out := [0] } =
        PeakStep.fault) := by
  decide!

/-- Claim C19, amended.  For every state reached from the constructed state by any
sequence of sample steps, and every sample step from it in which the sample is at or below
the adaptive threshold, no look-ahead countdown remains active (countdown at most 1 on
entry), a rising run is in progress and the recorded tentative-peak index lies inside the
output buffer: a 1.0 marker is written at that index and the lockout counter is armed to
the configured lockout exactly when the run length is at least `min_len` and
(`min_diff = 0` or the ratio is at least `min_diff`), the ratio being the `float` quotient
`x[i] / first_rise_value` when the run-start value is positive and 0 otherwise; otherwise
the buffer and the lockout counter are untouched; the rising run is ended in both cases. -/
theorem peak_confirmation_rule (min_diff : ℚ) (min_len K : Int) (drop alpha : ℚ) (LA : Int)
    (steps : List SampleStep) (s : baz_peak_detector)
    (hrun : run_steps (baz_make_peak_detector min_diff min_len K drop alpha LA) steps =
      some s)
    (N : Nat) (inp : Nat → ℚ) (i : Nat) (out : List ℚ)
    (hthr : ¬ inp i > threshold (ave_step s.d_alpha s.d_ave (inp (i - 1))) s.d_drop)
    (hla : s.d_look_ahead_count ≤ 1) (hr : s.d_rising = true)
    (hidx : 0 ≤ s.d_peak_idx ∧ s.d_peak_idx < out.length) :
    ∃ st', work_step N inp i { self := s, out := out } = PeakStep.next st' ∧
      st'.self.d_rising = false ∧
      ((s.d_rise_count ≥ s.d_min_len ∧
          (s.d_min_diff = 0 ∨
            (if s.d_first > 0 then fl32 (inp i / s.d_first) else 0) ≥ s.d_min_diff)) →
        st'.out = out.set s.d_peak_idx.toNat 1 ∧
        st'.self.d_lockout_count = s.d_lockout) ∧
      (¬ (s.d_rise_count ≥ s.d_min_len ∧
          (s.d_min_diff = 0 ∨
            (if s.d_first > 0 then fl32 (inp i / s.d_first) else 0) ≥ s.d_min_diff)) →
        st'.out = out ∧ st'.self.d_lockout_count = s.d_lockout_count) := by
  have h0 : risingInv (baz_make_peak_detector min_diff min_len K drop alpha LA) := by
    intro h
    exact absurd (show false = true from h) (by decide)
  have hlc : s.d_lockout_count ≤ 0 := run_steps_risingInv steps _ s h0 hrun hr
  rw [work_step_below N inp i s out (by omega) hthr hla, work_confirm_rising]
  · by_cases hc : s.d_rise_count ≥ s.d_min_len ∧
        (s.d_min_diff = 0 ∨
          (if s.d_first > 0 then fl32 (inp i / s.d_first) else 0) ≥ s.d_min_diff)
    · rw [if_pos hc]
      exact ⟨_, rfl, rfl, fun _ => ⟨rfl, rfl⟩, fun hn => absurd hc hn⟩
    · rw [if_neg hc]
      refine ⟨_, rfl, rfl, fun h => absurd h hc, fun _ => ⟨rfl, ?_⟩⟩
      show (if 0 < s.d_lockout_count then s.d_lockout_count - 1 else s.d_lockout_count) =
        s.d_lockout_count
      rw [if_neg (by omega)]
  · exact hr
  · exact hidx

/-- The amended claim C19 on the state a fresh detector reaches after the sample 10: the
next sample 0 confirms the run, writes the marker at index 0 and arms the lockout to 2. -/
theorem peak_confirmation_rule_witness :
    ∃ st', work_step 3 (streamOf [0, 10, 0, 0]) 2
        { self := baz_peak_detector.mk 0 1 2 0 1 0 true 1 0 10 0 10 0 0,
          out := [0, 0, 0] } = PeakStep.next st' ∧
      st'.self.d_rising = false ∧ st'.out = [1, 0, 0] ∧ st'.self.d_lockout_count = 2 := by
  obtain ⟨st', h1, h2, h3, _⟩ := peak_confirmation_rule 0 1 2 0 1 0
    [⟨3, streamOf [0, 10, 0, 0], 1, [0, 0, 0]⟩]
    (baz_peak_detector.mk 0 1 2 0 1 0 true 1 0 10 0 10 0 0) (by decide!)
    3 (streamOf [0, 10, 0, 0]) 2 [0, 0, 0] (by decide!) (by decide) rfl (by decide)
  exact ⟨st', h1, h2, h3 ⟨by decide, Or.inl rfl⟩⟩

/-! ## Theorems: peak detector, the marked sample of a run -/

theorem work_confirm_frame (inp : Nat → ℚ) (i : Nat) (s : baz_peak_detector)
    (out : List ℚ) (st' : PeakLoop) (h : work_confirm inp i s out = PeakStep.next st') :
    detectFrame s out st' := by
  simp only [work_confirm] at h
  split_ifs at h <;> cases h <;>
    first
      | exact ⟨rfl, rfl, rfl, rfl, rfl, rfl, rfl⟩
      | exact ⟨rfl, rfl, rfl, rfl, rfl, rfl, List.length_set _ _ _⟩

theorem work_rising_frame (N : Nat) (inp : Nat → ℚ) (i : Nat) (s : baz_peak_detector)
    (out : List ℚ) (st' : PeakLoop) (h : work_rising N inp i s out = PeakStep.next st') :
    detectFrame s out st' := by
  simp only [work_rising] at h
  split_ifs at h <;> cases h <;> exact ⟨rfl, rfl, rfl, rfl, rfl, rfl, rfl⟩

theorem work_detect_frame (N : Nat) (inp : Nat → ℚ) (i : Nat) (s : baz_peak_detector)
    (out : List ℚ) (st' : PeakLoop) (h : work_detect N inp i s out = PeakStep.next st') :
    detectFrame s out st' := by
  simp only [work_detect] at h
  split_ifs at h
  · exact work_rising_frame N inp i s out st' h
  · cases h; exact ⟨rfl, rfl, rfl, rfl, rfl, rfl, rfl⟩
  · have h2 := work_confirm_frame inp i _ out st' h
    exact h2
  · exact work_confirm_frame inp i s out st' h

/-- An iteration that does not return keeps the configuration and the buffer length, and
advances the average by one sample. -/
theorem work_step_frame (N : Nat) (inp : Nat → ℚ) (i : Nat) (st st' : PeakLoop)
    (h : work_step N inp i st = PeakStep.next st') :
    st'.self.d_alpha = st.self.d_alpha ∧ st'.self.d_drop = st.self.d_drop ∧
      st'.self.d_look_ahead = st.self.d_look_ahead ∧
      st'.self.d_min_diff = st.self.d_min_diff ∧ st'.self.d_min_len = st.self.d_min_len ∧
      st'.self.d_ave =
        ave_step st.self.d_alpha st.self.d_ave (inp (i - 1)) ∧
      st'.out.length = st.out.length := by
  simp only [work_step] at h
  split_ifs at h
  · cases h; exact ⟨rfl, rfl, rfl, rfl, rfl, rfl, rfl⟩
  · have h2 := work_detect_frame N inp i _ st.out st' h
    exact h2
  · have h2 := work_detect_frame N inp i _ st.out st' h
    exact h2

/-- The last iteration of a loop that did not return can be split off. -/
theorem work_loop_succ_next (N : Nat) (inp : Nat → ℚ) :
    ∀ (n i : Nat) (st st' : PeakLoop), work_loop N inp (n + 1) i st = PeakStep.next st' →
      ∃ st1, work_loop N inp n i st = PeakStep.next st1 ∧
        work_step N inp (i + n) st1 = PeakStep.next st' := by
  intro n
  induction n with
  | zero =>
    intro i st st' h
    refine ⟨st, rfl, ?_⟩
    rw [work_loop] at h
    cases hs : work_step N inp i st with
    | next st1 =>
      rw [hs] at h
      simp only [work_loop] at h
      rw [Nat.add_zero, hs]
      exact h
    | ret st1 r => rw [hs] at h; simp at h
    | fault => rw [hs] at h; simp at h
  | succ n ih =>
    intro i st st' h
    rw [work_loop] at h
    cases hs : work_step N inp i st with
    | next st1 =>
      rw [hs] at h
      simp only at h
      obtain ⟨st2, h2, h3⟩ := ih (i + 1) st1 st' h
      refine ⟨st2, ?_, ?_⟩
      · rw [work_loop, hs]; exact h2
      · have e : i + (n + 1) = i + 1 + n := by omega
        rw [e]; exact h3
    | ret st1 r => rw [hs] at h; simp at h
    | fault => rw [hs] at h; simp at h

/-- The state on entry to the iteration of output index `n`: configuration untouched,
average as given by `ave_after`, output buffer of full length. -/
theorem work_state_at_frame (self : baz_peak_detector) (N : Nat) (inp : Nat → ℚ) :
    ∀ (n : Nat) (st : PeakLoop), work_state_at self N inp n = some st →
      st.self.d_alpha = self.d_alpha ∧ st.self.d_drop = self.d_drop ∧
        st.self.d_look_ahead = self.d_look_ahead ∧
        st.self.d_min_diff = self.d_min_diff ∧ st.self.d_min_len = self.d_min_len ∧
        st.self.d_ave = ave_after self inp n ∧ st.out.length = N := by
  have key : ∀ (n : Nat) (st : PeakLoop),
      work_loop N inp n (0 + 1) { self := self, out := List.replicate N 0 } =
        PeakStep.next st →
      st.self.d_alpha = self.d_alpha ∧ st.self.d_drop = self.d_drop ∧
        st.self.d_look_ahead = self.d_look_ahead ∧
        st.self.d_min_diff = self.d_min_diff ∧ st.self.d_min_len = self.d_min_len ∧
        st.self.d_ave = ave_after self inp n ∧ st.out.length = N := by
    intro n
    induction n with
    | zero =>
      intro st h
      simp only [work_loop, PeakStep.next.injEq] at h
      subst h
      exact ⟨rfl, rfl, rfl, rfl, rfl, rfl, List.length_replicate _ _⟩
    | succ n ih =>
      intro st h
      obtain ⟨st1, h1, h2⟩ := work_loop_succ_next N inp n (0 + 1) _ st h
      obtain ⟨a1, a2, a3, a6, a7, a4, a5⟩ := ih st1 h1
      obtain ⟨b1, b2, b3, b6, b7, b4, b5⟩ := work_step_frame N inp (0 + 1 + n) st1 st h2
      refine ⟨b1.trans a1, b2.trans a2, b3.trans a3, b6.trans a6, b7.trans a7, ?_,
        b5.trans a5⟩
      rw [b4, a1, a4]
      have e : 0 + 1 + n - 1 = n := by omega
      rw [e]
      rfl
  intro n st h
  unfold work_state_at at h
  cases hl : work_loop N inp n (0 + 1) { self := self, out := List.replicate N 0 } with
  | next st1 =>
    rw [hl] at h
    simp only [Option.some.injEq] at h
    subst h
    exact key n st1 hl
  | ret st1 r => rw [hl] at h; simp at h
  | fault => rw [hl] at h; simp at h

/-- A sample above the threshold inside a rising run, outside a lockout: the rise count
grows, and a sample that exceeds the best value seen becomes the tentative peak; the loop
goes on when the look-ahead test of the code does not fire. -/
theorem work_step_climb (N : Nat) (inp : Nat → ℚ) (i : Nat) (s : baz_peak_detector)
    (out : List ℚ) (hlc : s.d_lockout_count ≤ 1) (hr : s.d_rising = true)
    (hthr : inp i > threshold (ave_step s.d_alpha s.d_ave (inp (i - 1))) s.d_drop)
    (hla : ¬ s.d_look_ahead > (N : Int) - ((i : Int) - 1) + 1) :
    work_step N inp i { self := s, out := out } =
      PeakStep.next
        { self :=
            if inp i > s.d_peak then
              { s with d_ave := ave_step s.d_alpha s.d_ave (inp (i - 1)),
                       d_lockout_count :=
                         if 0 < s.d_lockout_count then s.d_lockout_count - 1
                         else s.d_lockout_count,
                       d_rise_count := s.d_rise_count + 1, d_peak := inp i,
                       d_look_ahead_count := s.d_look_ahead,
                       d_peak_idx := (i : Int) - 1 }
            else
              { s with d_ave := ave_step s.d_alpha s.d_ave (inp (i - 1)),
                       d_lockout_count :=
                         if 0 < s.d_lockout_count then s.d_lockout_count - 1
                         else s.d_lockout_count,
                       d_rise_count := s.d_rise_count + 1 },
          out := out } := by
  by_cases h1 : 0 < s.d_lockout_count
  · have h2 : ¬ 0 < s.d_lockout_count - 1 := by omega
    by_cases hpk : inp i > s.d_peak
    · simp [work_step, work_detect, work_rising, h1, h2, hr, hthr, hla, hpk]
    · simp [work_step, work_detect, work_rising, h1, h2, hr, hthr, hpk]
  · by_cases hpk : inp i > s.d_peak
    · simp [work_step, work_detect, work_rising, h1, hr, hthr, hla, hpk]
    · simp [work_step, work_detect, work_rising, h1, hr, hthr, hpk]

theorem work_state_at_eq_some (self : baz_peak_detector) (N : Nat) (inp : Nat → ℚ)
    (n : Nat) (st : PeakLoop) :
    work_state_at self N inp n = some st ↔
      work_loop N inp n (0 + 1) { self := self, out := List.replicate N 0 } =
        PeakStep.next st := by
  unfold work_state_at
  cases hl : work_loop N inp n (0 + 1) { self := self, out := List.replicate N 0 } with
  | next st1 => simp
  | ret st1 r => simp
  | fault => simp

/-- A sample above the threshold inside a run keeps the run invariant. -/
theorem work_step_runInv (self : baz_peak_detector) (N s c : Nat) (inp : Nat → ℚ)
    (outs : List ℚ) (hcN : c < N)
    (hrun : ∀ j, s < j → j < c → above_threshold self inp j) :
    ∀ (j : Nat) (st : PeakLoop), s + 2 ≤ j → j < s + 2 + (c - s - 1) →
      runInv self inp s outs j st →
      ∃ st', work_step N inp j st = PeakStep.next st' ∧ runInv self inp s outs (j + 1) st' := by
  rintro j ⟨sj, oj⟩ hj1 hj2
    ⟨ho, ha, hd, hl, hmd, hml, hav, hr, hlcj, hlaj, hfirst, hrc, p, hp1, hp2, hidx, hpk,
      hmax, hstrict⟩
  simp only at ho ha hd hl hmd hml hav hr hlcj hlaj hfirst hrc hidx hpk
  have hj' : j - 1 + 1 = j := by omega
  have eave : ave_step sj.d_alpha sj.d_ave (inp (j - 1)) =
      ave_after self inp j := by
    rw [ha, hav]
    conv_rhs => rw [← hj']
    rfl
  have habove : above_threshold self inp (j - 1) := hrun (j - 1) (by omega) (by omega)
  unfold above_threshold at habove
  rw [hj'] at habove
  have hstep := work_step_climb N inp j sj oj (by omega) hr
    (by rw [eave, hd]; exact habove) (by rw [hl]; omega)
  refine ⟨_, hstep, ?_⟩
  have hlc' : (if 0 < sj.d_lockout_count then sj.d_lockout_count - 1
      else sj.d_lockout_count) ≤ 0 := by
    split_ifs <;> omega
  have hav' : ave_step sj.d_alpha sj.d_ave (inp (j - 1)) =
      ave_after self inp (j + 1 - 1) := by
    rw [Nat.add_sub_cancel]; exact eave
  have hrc' : sj.d_rise_count + 1 = ((j + 1 : Nat) : Int) - 1 - (s : Int) := by
    rw [hrc]; push_cast; ring
  by_cases hgt : inp j > sj.d_peak
  · rw [if_pos hgt]
    refine ⟨ho, ha, hd, hl, hmd, hml, hav', hr, hlc', hl, hfirst, hrc', j - 1, by omega,
      by omega, ?_, ?_, ?_, ?_⟩
    · show (j : Int) - 1 = ((j - 1 : Nat) : Int)
      omega
    · show inp j = inp (j - 1 + 1)
      rw [hj']
    · intro k hk1 hk2
      rw [hj']
      rcases Nat.lt_or_ge (k + 1) j with hlt | hge
      · exact le_trans (hmax k hk1 hlt) (le_of_lt (by rw [← hpk]; exact hgt))
      · have : k + 1 = j := by omega
        rw [this]
    · intro k hk1 hk2
      rw [hj']
      exact lt_of_le_of_lt (hmax k hk1 (by omega)) (by rw [← hpk]; exact hgt)
  · rw [if_neg hgt]
    refine ⟨ho, ha, hd, hl, hmd, hml, hav', hr, hlc', hlaj, hfirst, hrc', p, hp1, by omega,
      hidx, hpk, ?_, hstrict⟩
    intro k hk1 hk2
    rcases Nat.lt_or_ge (k + 1) j with hlt | hge
    · exact hmax k hk1 hlt
    · have : k + 1 = j := by omega
      rw [this, ← hpk]
      exact not_lt.mp hgt

/-- Claim C20 (the first maximum of a run is marked).  With `look_ahead = 0`, within one
invocation: when the iteration of output index `s` is reached outside a rising run and is
not skipped by the lockout, the samples `s .. c - 1` are above their thresholds and the
sample `c < N` is the first at or below its threshold, then on entry to the iteration of
`c` the tentative peak index is the smallest index `p` in `[s, c)` at which the input
attains its maximum over `s .. c - 1`; the iteration of `c` ends the run, and when the run
is confirmed (run length `c - s ≥ min_len`, and `min_diff = 0` or the ratio test passes)
it writes the 1.0 marker at `p`, inside the output buffer; otherwise it writes nothing. -/
theorem peak_first_maximum (self : baz_peak_detector) (N s c : Nat) (inp : Nat → ℚ)
    (st_s : PeakLoop) (hLA : self.d_look_ahead = 0) (hsc : s < c) (hcN : c < N)
    (hreach : work_state_at self N inp s = some st_s)
    (hnr : st_s.self.d_rising = false) (hlc : st_s.self.d_lockout_count ≤ 1)
    (hs : above_threshold self inp s)
    (hrun : ∀ j, s < j → j < c → above_threshold self inp j)
    (hc : ¬ above_threshold self inp c) :
    ∃ (p : Nat) (st_c st' : PeakLoop),
      s ≤ p ∧ p < c ∧ p < N ∧
      (∀ j, s ≤ j → j < c → inp (j + 1) ≤ inp (p + 1)) ∧
      (∀ j, s ≤ j → j < p → inp (j + 1) < inp (p + 1)) ∧
      work_state_at self N inp c = some st_c ∧
      st_c.self.d_peak_idx = (p : Int) ∧ st_c.out = st_s.out ∧
      work_step N inp (c + 1) st_c = PeakStep.next st' ∧
      st'.self.d_rising = false ∧
      (((c : Int) - (s : Int) ≥ self.d_min_len ∧
          (self.d_min_diff = 0 ∨
            (if inp (s + 1) > 0 then fl32 (inp (c + 1) / inp (s + 1)) else 0) ≥ self.d_min_diff)) →
        st'.out = st_s.out.set p 1 ∧ st'.out[p]? = some 1) ∧
      (¬ ((c : Int) - (s : Int) ≥ self.d_min_len ∧
          (self.d_min_diff = 0 ∨
            (if inp (s + 1) > 0 then fl32 (inp (c + 1) / inp (s + 1)) else 0) ≥ self.d_min_diff)) →
        st'.out = st_s.out) := by
  obtain ⟨ss, outs⟩ := st_s
  simp only at hnr hlc
  obtain ⟨fa, fd, fl, fmd, fml, fave, flen⟩ := work_state_at_frame self N inp s _ hreach
  simp only at fa fd fl fmd fml fave flen
  have hL := (work_state_at_eq_some self N inp s _).mp hreach
  -- the iteration of `s` starts the run
  have eave_s : ave_step ss.d_alpha ss.d_ave (inp (s + 1 - 1)) =
      ave_after self inp (s + 1) := by
    rw [fa, fave, Nat.add_sub_cancel]; rfl
  have hstep_s := work_step_rise N inp (s + 1) ss outs hlc hnr
    (by rw [eave_s, fd]; exact hs) (by rw [fl, hLA]; push_cast; omega)
  have hlc' : (if 0 < ss.d_lockout_count then ss.d_lockout_count - 1
      else ss.d_lockout_count) ≤ 0 := by
    split_ifs <;> omega
  obtain ⟨st1, hstep1, hI1⟩ : ∃ st1, work_step N inp (s + 1) { self := ss, out := outs } =
      PeakStep.next st1 ∧ runInv self inp s outs (s + 2) st1 :=
    ⟨_, hstep_s,
      ⟨rfl, fa, fd, fl.trans hLA, fmd, fml, eave_s, rfl, hlc', fl.trans hLA, rfl,
        by show (0 : Int) + 1 = ((s + 2 : Nat) : Int) - 1 - (s : Int); push_cast; ring,
        s, le_refl _, by omega,
        by show ((s + 1 : Nat) : Int) - 1 = (s : Int); push_cast; ring, rfl,
        fun j hj1 hj2 => by
          have : j = s := by omega
          rw [this],
        fun j hj1 hj2 => by omega⟩⟩
  -- the iterations of `s + 1 .. c - 1` keep the run invariant
  obtain ⟨st_c, hloop, hI⟩ := work_loop_invariant N inp (runInv self inp s outs)
    (c - s - 1) (s + 2) st1 hI1
    (fun j st hj1 hj2 hI => work_step_runInv self N s c inp outs hcN hrun j st hj1 hj2 hI)
  have hidxc : s + 2 + (c - s - 1) = c + 1 := by omega
  rw [hidxc] at hI
  have hLc : work_loop N inp c (0 + 1) { self := self, out := List.replicate N 0 } =
      PeakStep.next st_c := by
    have h1 : work_loop N inp (s + ((c - s - 1) + 1)) (0 + 1)
        { self := self, out := List.replicate N 0 } = PeakStep.next st_c := by
      rw [work_loop_add N inp ((c - s - 1) + 1) s (0 + 1) _ _ hL, work_loop]
      have e2 : 0 + 1 + s = s + 1 := by omega
      rw [e2, hstep1]
      exact hloop
    have e1 : s + ((c - s - 1) + 1) = c := by omega
    rw [e1] at h1
    exact h1
  have hreach_c := (work_state_at_eq_some self N inp c st_c).mpr hLc
  -- the iteration of `c` ends the run
  obtain ⟨sc, oc⟩ := st_c
  obtain ⟨ho, ha, hd, hl, hmd, hml, hav, hr, hlcc, hlac, hfirst, hrc, p, hp1, hp2, hidx, hpk,
    hmax, hstrict⟩ := hI
  simp only at ho ha hd hl hmd hml hav hr hlcc hlac hfirst hrc hidx hpk
  have hpc : p < c := by omega
  have eave_c : ave_step sc.d_alpha sc.d_ave (inp (c + 1 - 1)) =
      ave_after self inp (c + 1) := by
    rw [ha, hav]; rfl
  have hrc' : sc.d_rise_count = (c : Int) - (s : Int) := by
    rw [hrc]; push_cast; ring
  have hfin : ∃ st', work_step N inp (c + 1) { self := sc, out := oc } = PeakStep.next st' ∧
      st'.self.d_rising = false ∧
      ((sc.d_rise_count ≥ sc.d_min_len ∧
          (sc.d_min_diff = 0 ∨
            (if sc.d_first > 0 then fl32 (inp (c + 1) / sc.d_first) else 0) ≥ sc.d_min_diff)) →
        st'.out = oc.set sc.d_peak_idx.toNat 1) ∧
      (¬ (sc.d_rise_count ≥ sc.d_min_len ∧
          (sc.d_min_diff = 0 ∨
            (if sc.d_first > 0 then fl32 (inp (c + 1) / sc.d_first) else 0) ≥ sc.d_min_diff)) →
        st'.out = oc) := by
    rw [work_step_below N inp (c + 1) sc oc (by omega) (by rw [eave_c, hd]; exact hc)
      (by omega), work_confirm_rising]
    · by_cases hcond : sc.d_rise_count ≥ sc.d_min_len ∧
          (sc.d_min_diff = 0 ∨
            (if sc.d_first > 0 then fl32 (inp (c + 1) / sc.d_first) else 0) ≥ sc.d_min_diff)
      · rw [if_pos hcond]
        exact ⟨_, rfl, rfl, fun _ => rfl, fun hn => absurd hcond hn⟩
      · rw [if_neg hcond]
        exact ⟨_, rfl, rfl, fun h => absurd h hcond, fun _ => rfl⟩
    · exact hr
    · show 0 ≤ sc.d_peak_idx ∧ sc.d_peak_idx < (oc.length : Int)
      rw [hidx, ho, flen]
      omega
  obtain ⟨st', hst', hris, hyes, hno⟩ := hfin
  rw [hrc', hml, hmd, hfirst, hidx, Int.toNat_natCast, ho] at hyes
  rw [hrc', hml, hmd, hfirst, ho] at hno
  refine ⟨p, { self := sc, out := oc }, st', hp1, hpc, by omega, ?_, hstrict, hreach_c, hidx,
    ho, hst', hris, ?_, hno⟩
  · intro j hj1 hj2
    exact hmax j hj1 (by omega)
  · intro hcond
    have hout := hyes hcond
    refine ⟨hout, ?_⟩
    rw [hout, List.getElem?_set]
    simp [flen, show p < N by omega]

/-- The `float` average ends a run on a constant input.  Fresh detector with
`min_diff = 0`, `min_len = 1`, lockout 0, `drop = 0`, `alpha = 1/2`, `look_ahead = 0`;
history sample 1 and the samples 25 times 1, then 2, then 0.  The average `1 - 2^(-k)`
rounds to 1 at the sample of output index 24, which is then not above the threshold: the
run that started at index 0 ends there and is marked at 0, the first of its equal maxima,
and the sample 2 at index 25 starts and peaks a second run, marked at 25. -/
theorem peak_float_average_ends_run :
    ave_after (baz_make_peak_detector 0 1 0 0 (1 / 2) 0)
        (streamOf (1 :: (List.replicate 25 1 ++ [2, 0]))) 24 = 1 - 1 / 2 ^ 24 ∧
    ave_after (baz_make_peak_detector 0 1 0 0 (1 / 2) 0)
        (streamOf (1 :: (List.replicate 25 1 ++ [2, 0]))) 25 = 1 ∧
    (work (baz_make_peak_detector 0 1 0 0 (1 / 2) 0) 27
        (streamOf (1 :: (List.replicate 25 1 ++ [2, 0])))).map
        (fun r => (r.out, r.produced)) =
      some ((1 : ℚ) :: (List.replicate 24 0 ++ [1, 0]), 27) := by
  decide!

theorem peak_first_maximum_witness :
    ∃ (p : Nat) (st_c st' : PeakLoop),
      0 ≤ p ∧ p < 2 ∧ p < 3 ∧
      (∀ j, 0 ≤ j → j < 2 → (streamOf [0, 4, 4, 1]) (j + 1) ≤ (streamOf [0, 4, 4, 1]) (p + 1)) ∧
      (∀ j, 0 ≤ j → j < p → (streamOf [0, 4, 4, 1]) (j + 1) < (streamOf [0, 4, 4, 1]) (p + 1)) ∧
      work_state_at (baz_make_peak_detector 0 1 0 (1 / 2) 1 0) 3 (streamOf [0, 4, 4, 1]) 2 = some st_c ∧
      st_c.self.d_peak_idx = (p : Int) ∧
      st_c.out = List.replicate 3 0 ∧
      work_step 3 (streamOf [0, 4, 4, 1]) (2 + 1) st_c = PeakStep.next st' ∧
      st'.self.d_rising = false ∧
      ((((2 : Nat) : Int) - ((0 : Nat) : Int) ≥ (baz_make_peak_detector 0 1 0 (1 / 2) 1 0).d_min_len ∧
          ((baz_make_peak_detector 0 1 0 (1 / 2) 1 0).d_min_diff = 0 ∨
            (if (streamOf [0, 4, 4, 1]) (0 + 1) > 0 then
                fl32 ((streamOf [0, 4, 4, 1]) (2 + 1) / (streamOf [0, 4, 4, 1]) (0 + 1))
              else 0) ≥
              (baz_make_peak_detector 0 1 0 (1 / 2) 1 0).d_min_diff)) →
        st'.out = (List.replicate 3 0).set p 1 ∧ st'.out[p]? = some 1) ∧
      (¬ (((2 : Nat) : Int) - ((0 : Nat) : Int) ≥ (baz_make_peak_detector 0 1 0 (1 / 2) 1 0).d_min_len ∧
          ((baz_make_peak_detector 0 1 0 (1 / 2) 1 0).d_min_diff = 0 ∨
            (if (streamOf [0, 4, 4, 1]) (0 + 1) > 0 then
                fl32 ((streamOf [0, 4, 4, 1]) (2 + 1) / (streamOf [0, 4, 4, 1]) (0 + 1))
              else 0) ≥
              (baz_make_peak_detector 0 1 0 (1 / 2) 1 0).d_min_diff)) →
        st'.out = List.replicate 3 0) :=
  peak_first_maximum (baz_make_peak_detector 0 1 0 (1 / 2) 1 0) 3 0 2 (streamOf [0, 4, 4, 1])
    { self := (baz_make_peak_detector 0 1 0 (1 / 2) 1 0), out := List.replicate 3 0 } rfl (by decide) (by decide) rfl rfl
    (by decide)
    (by unfold above_threshold; decide!)
    (by
      intro j hj1 hj2
      have hj : j = 1 := by omega
      subst hj
      unfold above_threshold
      decide!)
    (by unfold above_threshold; decide!)

end GrBaz
